import Mathlib

/-!
Verification of the CappBot reconciliation engine (`main/cappbot.py`,
`main/default_settings.py`).

The Python code is shallowly embedded: the mutable `issue_working_state`
dictionary together with the bot's `should_open_issue` / `should_close_issue`
flags become the `WorkingState` record, the persisted per-issue database
record becomes `Snapshot`, remote mutations become an explicit `Action`
trace, and the fixed regular expressions become executable character-list
matchers.  String primitives (`split`, `strip`, `lower`, `sorted`, `join`)
are re-implemented by structural recursion over character lists so that
every definition evaluates inside the kernel.

Modelling notes, applying throughout:
* Python 2 `unicode` strings are modelled as Lean `String`; the regex
  classes `\w`/`\d` are modelled over ASCII (`Char.isAlphanum`), which is
  exact for every label, login and directive the configuration uses.
* `self.should_open_issue` / `self.should_close_issue` each hold either
  `False` or a (non-empty) label string; they are modelled as
  `Option String` with `none` for `False`.  The Python identity test
  `x is label` on these flags compares interned label strings obtained
  from the same `known_labels` lookup, so it is modelled as equality.
* `WHEN_LABEL_REMOVE_LABELS` is a Python dict; its items are modelled as an
  association list in source order.
* `issue.comments` (the remote comment count) is modelled as the length of
  the fetched comment list `issue._comments`, which phase 2 has always
  loaded.
-/

namespace CappBot

/-- Python `str.strip` whitespace set (space, tab, newline, return, vertical
tab, form feed). -/
def isPySpace (c : Char) : Bool :=
  c == ' ' || c == '\t' || c == '\n' || c == '\r' || c == '\x0b' || c == '\x0c'

/-- Strip leading and trailing whitespace from a character list (Python
`str.strip`). -/
def trimChars (cs : List Char) : List Char :=
  ((cs.dropWhile isPySpace).reverse.dropWhile isPySpace).reverse

/-- Python `line.strip()`. -/
def strTrim (s : String) : String :=
  String.mk (trimChars s.toList)

/-- Split a character list on newline characters (Python `s.split('\n')`):
always returns at least one (possibly empty) chunk. -/
def linesAux : List Char → List (List Char)
  | [] => [[]]
  | c :: rest =>
    let r := linesAux rest
    if c == '\n' then [] :: r
    else
      match r with
      | h :: t => (c :: h) :: t
      | [] => [[c]]

/-- Python `body.split('\n')`. -/
def splitLinesStr (s : String) : List String :=
  (linesAux s.toList).map String.mk

/-- Python `s.lower()` (ASCII case folding). -/
def lowerStr (s : String) : String :=
  String.mk (s.toList.map Char.toLower)

/-- Lexicographic (code-point) comparison of character lists, the order
Python `sorted` uses on strings. -/
def charsLe : List Char → List Char → Bool
  | [], _ => true
  | _ :: _, [] => false
  | a :: as, b :: bs =>
    if a.val < b.val then true
    else if b.val < a.val then false
    else charsLe as bs

/-- Python `a <= b` on strings. -/
def strLe (a b : String) : Bool :=
  charsLe a.toList b.toList

/-- Insert into a `strLe`-sorted list, keeping earlier-inserted equal
elements first (stability of Python `sorted`). -/
def insertLe (a : String) : List String → List String
  | [] => [a]
  | b :: bs => if strLe a b then a :: b :: bs else b :: insertLe a bs

/-- Python `sorted` for lists of strings. -/
def sortStrings (ls : List String) : List String :=
  ls.foldr insertLe []

/-- Python `sep.join(parts)`. -/
def joinSep (sep : String) : List String → String
  | [] => ""
  | [x] => x
  | x :: rest => x ++ sep ++ joinSep sep rest

/-! ## Data model (`mini_github3` objects as consumed by `cappbot.py`) -/

/-- A GitHub user: only the fields CappBot reads. -/
structure GhUser where
  id : Nat
  login : String
deriving Repr, DecidableEq

/-- A GitHub milestone: only the fields CappBot reads. -/
structure GhMilestone where
  number : Nat
  title : String
deriving Repr, DecidableEq

/-- An issue comment (`comment.body` is `""` when the Python value is falsy,
i.e. `None` or empty). -/
structure GhComment where
  id : Nat
  user : GhUser
  url : String
  body : String
deriving Repr, DecidableEq

/-- An issue as seen in phase 2: labels are the remote label names,
`comments` is the fetched `issue._comments` list, `forcePaperTrail` is the
`issue._force_paper_trail` flag set during phase 1. -/
structure GhIssue where
  id : Nat
  number : Nat
  title : String
  state : String
  updated_at : String
  labels : List String
  milestone : Option GhMilestone
  assignee : Option GhUser
  comments : List GhComment
  forcePaperTrail : Bool
deriving Repr, DecidableEq

/-- The persisted per-issue database record (`record_issue`). -/
structure Snapshot where
  number : Nat
  comments_count : Nat
  milestone_number : Option Nat
  assignee_id : Option Nat
  labels : List String
  updated_at : Option String
  votes : Option Int
  latest_seen_comment_id : Option Nat
deriving Repr, DecidableEq

/-- Settings (`default_settings.py`) together with the per-run repository
data the bot loads in `run()` (`known_labels`, `known_milestones`,
`collaborator_logins`, the authenticated login) and the effective
`PERMISSIONS` table after collaborators are granted everything. -/
structure Config where
  knownLabels : List String
  knownMilestones : List String
  collaboratorLogins : List String
  permissions : List (String × List String)
  whenLabelRemoveLabels : List (String × List String)
  mutuallyExclusiveLabels : List String
  closeIssueWhenAddsLabel : List String
  openIssueWhenRemovesLabel : List String
  botLogin : String
deriving Repr, DecidableEq

/-- The in-memory working state threaded through the rule functions:
the `issue_working_state` dict plus the bot's `should_open_issue` and
`should_close_issue` flags (`none` models Python `False`). -/
structure WorkingState where
  labels : List String
  milestone : Option String
  assignee : Option String
  shouldOpen : Option String
  shouldClose : Option String
deriving Repr, DecidableEq

/-! ## Configuration constants from `default_settings.py` -/

/-- Embeds `WHEN_LABEL_REMOVE_LABELS` from `default_settings.py`, in source order. -/
def defaultWhenLabelRemoveLabels : List (String × List String) :=
  [("#acknowledged", ["#needs-confirmation", "#needs-info"]),
   ("#accepted", ["#needs-confirmation", "#needs-info", "#needs-review"]),
   ("#ready-to-commit",
    ["#needs-confirmation", "#needs-docs", "#needs-improvement", "#needs-info",
     "#needs-patch", "#needs-reduction", "#needs-review", "#needs-unit-test"]),
   ("#fixed",
    ["#needs-confirmation", "#needs-docs", "#needs-improvement", "#needs-info",
     "#needs-patch", "#needs-reduction", "#needs-review", "#needs-unit-test",
     "#ready-to-commit"]),
   ("#wont-fix",
    ["#needs-confirmation", "#needs-docs", "#needs-improvement", "#needs-info",
     "#needs-patch", "#needs-reduction", "#needs-review", "#needs-unit-test",
     "#ready-to-commit"]),
   ("#duplicate",
    ["#new", "#needs-confirmation", "#needs-docs", "#needs-improvement",
     "#needs-info", "#needs-patch", "#needs-reduction", "#needs-review",
     "#needs-unit-test", "#ready-to-commit"])]

/-- Embeds `MUTUALLY_EXCLUSIVE_LABELS` from `default_settings.py`. -/
def defaultMutuallyExclusiveLabels : List String :=
  ["#new", "#acknowledged", "#accepted", "#wont-fix", "#works-for-me", "#fixed"]

/-- Embeds `CLOSE_ISSUE_WHEN_CAPPBOT_ADDS_LABEL` from `default_settings.py`
(`OPEN_ISSUE_WHEN_CAPPBOT_REMOVES_LABEL` is the same list). -/
def defaultCloseIssueWhenAddsLabel : List String :=
  ["#wont-fix", "#works-for-me", "#fixed", "#duplicate"]

/-- Embeds `LABEL_EXPLANATIONS` from `default_settings.py`. -/
def LABEL_EXPLANATIONS : List (String × String) :=
  [("#needs-confirmation", "This issue needs a volunteer to independently reproduce the issue."),
   ("#needs-info", "Additional information should be added as a comment to this isuse."),
   ("#needs-review", "This issue is pending an architectural or implementation design decision and should be discussed or voted on."),
   ("#needs-docs", "Additional documentation patches should be submitted for this issue."),
   ("#needs-improvement", "The code for this issue has problems with formatting or fails a capp_lint check, has bugs, or has non-optimal logic or algorithms. It should be improved upon."),
   ("#needs-patch", "This issue needs a volunteer to write and submit code to address it."),
   ("#needs-reduction", "A minimal test app should be created which demonstrates the concern of this issue in isolation."),
   ("#needs-unit-test", "This issue needs a volunteer to write and submit one or more unit tests execercising the changes and/or the relevant parts of the original problem."),
   ("#duplicate", "This issue duplicates another existing issue. Refer to the duplicate issue for further information."),
   ("#fixed", "This issue is considered successfully resolved."),
   ("#wont-fix", "A reviewer or core team member has decided against acting upon this issue."),
   ("#works-for-me", "Attempts to reproduce the problem described by this issue have failed to reveal any erroneous situation."),
   ("#new", "A reviewer should examine this issue."),
   ("#accepted", "This issue has been confirmed but needs further review.")]

/-- Embeds `FINAL_WORD_LABELS` from `default_settings.py`. -/
def FINAL_WORD_LABELS : List String :=
  ["#fixed", "#duplicate", "#wont-fix", "#works-for-me"]

/-- Dictionary access `LABEL_EXPLANATIONS[label]`. -/
def explanationOf (label : String) : Option String :=
  (LABEL_EXPLANATIONS.find? (fun e => e.1 == label)).map Prod.snd

/-! ## The fixed line grammars (the compiled regular expressions)

`ADD_LABEL_REGEX  = ^\+([-\w\d _#]*[-\w\d_#]+)$|^(#[-\w\d _#]*[-\w\d_#]+)$`
`REMOVE_LABEL_REGEX = ^-([-\w\d _#]*[-\w\d_#]+)$`
`SET_MILESTONE_REGEX = ^milestone=(.*)$`
`SET_ASSIGNEE_REGEX = ^assignee=([-\w\d_#]*)$`
`VOTE_REGEX = ^[-\+][01]$`
`TITLE_VOTE_REGEX = ` a space then `\[[-+]\d+\]` at end of string.
-/

/-- A character of the class `[-\w\d _#]`. -/
def labelChar (c : Char) : Bool :=
  c.isAlphanum || c == '_' || c == '-' || c == ' ' || c == '#'

/-- A character of the class `[-\w\d_#]` (no space). -/
def labelCharNoSpace (c : Char) : Bool :=
  c.isAlphanum || c == '_' || c == '-' || c == '#'

/-- Matches `[-\w\d _#]*[-\w\d_#]+`: a non-empty run of label characters
whose final character is not a space. -/
def tokenBody (cs : List Char) : Bool :=
  !cs.isEmpty && cs.all labelChar && labelCharNoSpace (cs.getLastD ' ')

/-- Embeds `VOTE_REGEX.match(line)`: exactly `+1`, `-1`, `+0` or `-0`. -/
def voteMatch (line : String) : Bool :=
  line == "+1" || line == "-1" || line == "+0" || line == "-0"

/-- Python `int(line)` for a vote line. -/
def voteValue (line : String) : Int :=
  if line == "+1" then 1 else if line == "-1" then -1 else 0

/-- Embeds `ADD_LABEL_REGEX.match(line)` with the extraction
`(m.group(1) or m.group(2)).lower()` already applied. -/
def addLabelMatch (line : String) : Option String :=
  match line.toList with
  | '+' :: rest => if tokenBody rest then some (lowerStr (String.mk rest)) else none
  | '#' :: rest => if tokenBody rest then some (lowerStr line) else none
  | _ => none

/-- Embeds `REMOVE_LABEL_REGEX.match(line)` with `m.group(1).lower()` applied. -/
def removeLabelMatch (line : String) : Option String :=
  match line.toList with
  | '-' :: rest => if tokenBody rest then some (lowerStr (String.mk rest)) else none
  | _ => none

/-- Embeds `SET_MILESTONE_REGEX.match(line)` with `m.group(1).lower()` applied. -/
def setMilestoneMatch (line : String) : Option String :=
  match line.toList with
  | 'm' :: 'i' :: 'l' :: 'e' :: 's' :: 't' :: 'o' :: 'n' :: 'e' :: '=' :: rest =>
    some (lowerStr (String.mk rest))
  | _ => none

/-- Embeds `SET_ASSIGNEE_REGEX.match(line)` with `m.group(1).lower()` applied. -/
def setAssigneeMatch (line : String) : Option String :=
  match line.toList with
  | 'a' :: 's' :: 's' :: 'i' :: 'g' :: 'n' :: 'e' :: 'e' :: '=' :: rest =>
    if rest.all labelCharNoSpace then some (lowerStr (String.mk rest)) else none
  | _ => none

/-- How a single trimmed comment line is consumed by the dispatch chain in
`updated_state_by_interpreting_new_comments`. -/
inductive LineClass where
  | vote : LineClass
  | addLabel (name : String) : LineClass
  | removeLabel (name : String) : LineClass
  | setMilestone (title : String) : LineClass
  | setAssignee (login : String) : LineClass
  | unmatched : LineClass
deriving Repr, DecidableEq

/-- The first-match dispatch over a trimmed line performed by the comment
loop of `updated_state_by_interpreting_new_comments` (vote lines are
consumed first and skipped). -/
def classifyLine (line : String) : LineClass :=
  if voteMatch line then .vote
  else match addLabelMatch line with
  | some name => .addLabel name
  | none =>
    match removeLabelMatch line with
    | some name => .removeLabel name
    | none =>
      match setMilestoneMatch line with
      | some title => .setMilestone title
      | none =>
        match setAssigneeMatch line with
        | some login => .setAssignee login
        | none => .unmatched

/-! ## Label/state policy engine -/

/-- A log line produced by the policy engine (`logbook.info` /
`logbook.warning`). -/
inductive LogEntry where
  | info (msg : String) : LogEntry
  | warning (msg : String) : LogEntry
deriving Repr, DecidableEq

/-- Embeds `get_label_by_name`: the known label matching case-insensitively, or
`none`.  (`known_labels` is a Python set; we model it as a list, which is
deterministic whenever no two known labels differ only by case.) -/
def get_label_by_name (cfg : Config) (aLabel : String) : Option String :=
  cfg.knownLabels.find? (fun label => lowerStr label == lowerStr aLabel)

/-- Embeds `get_milestone_title_by_title`: empty/blank titles resolve to `none`,
otherwise a case-insensitive lookup among known milestone titles. -/
def get_milestone_title_by_title (cfg : Config) (aMilestone : String) : Option String :=
  if strTrim aMilestone == "" then none
  else cfg.knownMilestones.find? (fun m => lowerStr m == lowerStr aMilestone)

/-- Embeds `get_assignee_login_by_name`: empty/blank logins resolve to `none`,
otherwise a case-insensitive lookup among collaborator logins. -/
def get_assignee_login_by_name (cfg : Config) (anAssignee : String) : Option String :=
  if strTrim anAssignee == "" then none
  else cfg.collaboratorLogins.find? (fun a => lowerStr a == lowerStr anAssignee)

/-- Embeds `user_may_alter_labels`: `'labels' in PERMISSIONS.get(user.login, ())`. -/
def user_may_alter_labels (cfg : Config) (login : String) : Bool :=
  match cfg.permissions.find? (fun e => e.1 == login) with
  | some e => e.2.contains "labels"
  | none => false

/-- Embeds `user_may_set_milestone`. -/
def user_may_set_milestone (cfg : Config) (login : String) : Bool :=
  match cfg.permissions.find? (fun e => e.1 == login) with
  | some e => e.2.contains "milestone"
  | none => false

/-- Embeds `user_may_set_assignee`. -/
def user_may_set_assignee (cfg : Config) (login : String) : Bool :=
  match cfg.permissions.find? (fun e => e.1 == login) with
  | some e => e.2.contains "assignee"
  | none => false

/-- Embeds `add_label`: move the resolved label to the end of the ordered list and
schedule a close when it is in the close-on-add set (or when it cancels a
pending open of the same label).  Callers always pass a label that
resolves; the unreachable unresolved case leaves the state unchanged. -/
def add_label (cfg : Config) (newLabel : String) (st : WorkingState) : WorkingState :=
  match get_label_by_name cfg newLabel with
  | none => st
  | some lp =>
    let labels' := (if lp ∈ st.labels then st.labels.erase lp else st.labels) ++ [lp]
    if cfg.closeIssueWhenAddsLabel.any (fun l => lowerStr l == lowerStr lp)
        || st.shouldOpen == some lp then
      { st with labels := labels', shouldOpen := none, shouldClose := some lp }
    else
      { st with labels := labels' }

/-- Embeds `remove_label`: drop the resolved label if present and schedule a reopen
when it is in the open-on-remove set (or when it cancels a pending close of
the same label). -/
def remove_label (cfg : Config) (removeLabelName : String) (st : WorkingState) : WorkingState :=
  match get_label_by_name cfg removeLabelName with
  | none => st
  | some lp =>
    if lp ∈ st.labels then
      let labels' := st.labels.erase lp
      if cfg.openIssueWhenRemovesLabel.any (fun l => lowerStr l == lowerStr lp)
          || st.shouldClose == some lp then
        { st with labels := labels', shouldOpen := some lp, shouldClose := none }
      else
        { st with labels := labels' }
    else st

/-- Embeds `add_label_due_to_comment`: unknown labels and unauthorized users are
logged no-ops; otherwise delegate to `add_label`. -/
def add_label_due_to_comment (cfg : Config) (newLabel : String) (comment : GhComment)
    (st : WorkingState) : WorkingState × List LogEntry :=
  match get_label_by_name cfg newLabel with
  | none =>
    (st, [.info ("Ignoring unknown label " ++ newLabel ++ " in comment " ++ comment.url
      ++ " by " ++ comment.user.login ++ ".")])
  | some lp =>
    if !user_may_alter_labels cfg comment.user.login then
      (st, [.warning ("Ignoring unathorised attempt to alter labels by "
        ++ comment.user.login ++ " through comment " ++ comment.url ++ ".")])
    else
      (add_label cfg lp st,
        [.info ("Adding label " ++ lp ++ " due to comment " ++ comment.url ++ " by "
          ++ comment.user.login)])

/-- Embeds `remove_label_due_to_comment`. -/
def remove_label_due_to_comment (cfg : Config) (removeLabelName : String) (comment : GhComment)
    (st : WorkingState) : WorkingState × List LogEntry :=
  match get_label_by_name cfg removeLabelName with
  | none =>
    (st, [.info ("Ignoring unknown label " ++ removeLabelName ++ " in comment by "
      ++ comment.user.login ++ ".")])
  | some lp =>
    if !user_may_alter_labels cfg comment.user.login then
      (st, [.warning ("Ignoring unathorised attempt to alter labels by "
        ++ comment.user.login ++ " through comment " ++ comment.url ++ ".")])
    else
      (remove_label cfg lp st,
        [.info ("Removing label " ++ lp ++ " due to comment by " ++ comment.user.login)])

/-- Embeds `set_milestone`: re-resolve the title (Python passes the proper title or
`None`, which `get_milestone_title_by_title` maps to `None` again) and no-op
when it equals the current one. -/
def set_milestone (cfg : Config) (newMilestone : Option String) (st : WorkingState) :
    WorkingState :=
  let proper := match newMilestone with
    | none => none
    | some m => get_milestone_title_by_title cfg m
  if proper == st.milestone then st else { st with milestone := proper }

/-- Embeds `set_assignee`: same shape as `set_milestone` over collaborator logins. -/
def set_assignee (cfg : Config) (newAssignee : Option String) (st : WorkingState) :
    WorkingState :=
  let proper := match newAssignee with
    | none => none
    | some a => get_assignee_login_by_name cfg a
  if proper == st.assignee then st else { st with assignee := proper }

/-- Embeds `set_milestone_due_to_comment` (`new_milestone` is the lowered matched
group; empty clears the milestone). -/
def set_milestone_due_to_comment (cfg : Config) (newMilestone : String) (comment : GhComment)
    (st : WorkingState) : WorkingState × List LogEntry :=
  if newMilestone != "" && (get_milestone_title_by_title cfg newMilestone) == none then
    (st, [.info ("Ignoring unknown milestone " ++ newMilestone ++ " in comment by "
      ++ comment.user.login ++ ".")])
  else
    let resolved := if newMilestone == "" then none
      else get_milestone_title_by_title cfg newMilestone
    if !user_may_set_milestone cfg comment.user.login then
      (st, [.warning ("Ignoring unathorised attempt to alter milestone by "
        ++ comment.user.login ++ " through comment " ++ comment.url ++ ".")])
    else
      (set_milestone cfg resolved st, [.info "Setting milestone due to comment"])

/-- Embeds `set_assignee_due_to_comment` (empty clears the assignee). -/
def set_assignee_due_to_comment (cfg : Config) (newAssignee : String) (comment : GhComment)
    (st : WorkingState) : WorkingState × List LogEntry :=
  if newAssignee != "" && (get_assignee_login_by_name cfg newAssignee) == none then
    (st, [.info ("Ignoring unknown assignee " ++ newAssignee ++ " in comment by "
      ++ comment.user.login ++ ".")])
  else
    let resolved := if newAssignee == "" then none
      else get_assignee_login_by_name cfg newAssignee
    if !user_may_set_assignee cfg comment.user.login then
      (st, [.warning ("Ignoring unathorised attempt to alter assignee by "
        ++ comment.user.login ++ " through comment " ++ comment.url ++ ".")])
    else
      (set_assignee cfg resolved st, [.info "Setting assignee due to comment"])

/-! ## New-comment retrieval (`get_new_comments`) -/

/-- Stable insertion for sorting comments by id (Python
`sorted(comments, key=attrgetter('id'))`). -/
def insertById (c : GhComment) : List GhComment → List GhComment
  | [] => [c]
  | d :: ds => if c.id ≤ d.id then c :: d :: ds else d :: insertById c ds

/-- Stable sort of comments by ascending id. -/
def sortById (cs : List GhComment) : List GhComment :=
  cs.foldr insertById []

/-- The enumerate-and-slice loop of `get_new_comments`: walk the sorted list
with index `n`; on `comment.id == latest` return `comments[n+1:]`, on
`comment.id > latest` return `comments[n:]`, otherwise continue; `[]` when
the loop ends. -/
def get_new_comments_loop (latest : Nat) (comments : List GhComment) :
    List GhComment → Nat → List GhComment
  | [], _ => []
  | c :: rest, n =>
    if c.id == latest then comments.drop (n + 1)
    else if latest < c.id then comments.drop n
    else get_new_comments_loop latest comments rest (n + 1)

/-- Embeds `get_new_comments`: all comments unless a latest-seen id is recorded,
otherwise the slice of `comments` after the recorded id in the
id-sorted enumeration. -/
def get_new_comments (latest : Option Nat) (comments : List GhComment) : List GhComment :=
  match latest with
  | none => comments
  | some lid => get_new_comments_loop lid comments (sortById comments) 0

/-! ## Comment interpretation (`updated_state_by_interpreting_new_comments`) -/

/-- The body of the line loop: strip the line, dispatch on the first
matching grammar and apply the corresponding `*_due_to_comment` operation
(logs are accumulated alongside the state). -/
def processLine (cfg : Config) (comment : GhComment) (acc : WorkingState × List LogEntry)
    (rawLine : String) : WorkingState × List LogEntry :=
  let st := acc.1
  match classifyLine (strTrim rawLine) with
  | .vote => acc
  | .addLabel name =>
    let r := add_label_due_to_comment cfg name comment st
    (r.1, acc.2 ++ r.2)
  | .removeLabel name =>
    let r := remove_label_due_to_comment cfg name comment st
    (r.1, acc.2 ++ r.2)
  | .setMilestone title =>
    let r := set_milestone_due_to_comment cfg title comment st
    (r.1, acc.2 ++ r.2)
  | .setAssignee login =>
    let r := set_assignee_due_to_comment cfg login comment st
    (r.1, acc.2 ++ r.2)
  | .unmatched => acc

/-- The body of the comment loop: skip falsy bodies, else process each line. -/
def processComment (cfg : Config) (acc : WorkingState × List LogEntry) (comment : GhComment) :
    WorkingState × List LogEntry :=
  if comment.body == "" then acc
  else (splitLinesStr comment.body).foldl (processLine cfg comment) acc

/-- Embeds `updated_state_by_interpreting_new_comments`: canonicalise the label
capitalisation, then interpret every new comment.  (In the running system
every issue label is a known repository label, so `get_label_by_name`
resolves; the unreachable unknown case keeps the label unchanged where
Python would keep a `None` entry.) -/
def updated_state_by_interpreting_new_comments (cfg : Config) (issue : GhIssue)
    (latestSeen : Option Nat) (st : WorkingState) : WorkingState × List LogEntry :=
  let newComments := get_new_comments latestSeen issue.comments
  let st := { st with labels := st.labels.map (fun l => (get_label_by_name cfg l).getD l) }
  newComments.foldl (processComment cfg) (st, [])

/-! ## Cascade and mutual-exclusion rules
(`updated_state_per_label_removal_rules`) -/

/-- The inner loop of the cascade phase: remove each listed label that is
currently present (side effects fire through `remove_label`). -/
def cascadeRemovals (cfg : Config) (labelsToRemove : List String) (st : WorkingState) :
    WorkingState :=
  labelsToRemove.foldl
    (fun s lab => if s.labels.contains lab then remove_label cfg lab s else s) st

/-- The cascade phase of `updated_state_per_label_removal_rules`: for each
`WHEN_LABEL_REMOVE_LABELS` rule whose trigger is present, remove its listed
labels. -/
def cascadeRules (cfg : Config) (st : WorkingState) : WorkingState :=
  cfg.whenLabelRemoveLabels.foldl
    (fun s rule => if s.labels.contains rule.1 then cascadeRemovals cfg rule.2 s else s) st

/-- The fold at the end of the mutual-exclusion loop: remove every
mutually-exclusive label appearing in `others` (the part of the reversed
list after the first mutually-exclusive label found). -/
def mutexRemovals (cfg : Config) (others : List String) (st : WorkingState) : WorkingState :=
  others.foldl
    (fun s other =>
      if cfg.mutuallyExclusiveLabels.contains other then remove_label cfg other s else s)
    st

/-- The mutual-exclusion loop: scan the reversed label list for the first
(i.e. most recently added) mutually-exclusive label, remove all the others,
and stop. -/
def mutexLoop (cfg : Config) : List String → WorkingState → WorkingState
  | [], st => st
  | label :: rest, st =>
    if cfg.mutuallyExclusiveLabels.contains label then mutexRemovals cfg rest st
    else mutexLoop cfg rest st

/-- Embeds `updated_state_per_label_removal_rules`: the cascade phase followed by
the mutual-exclusion phase over the reversed (most recent first) label
list. -/
def updated_state_per_label_removal_rules (cfg : Config) (st : WorkingState) : WorkingState :=
  let st1 := cascadeRules cfg st
  mutexLoop cfg st1.labels.reverse st1

/-! ## Vote tallying (`recount_votes`) -/

/-- The vote-shaped lines of one comment, as `(author, value)` events in
line order (empty bodies are skipped). -/
def voteLines (comment : GhComment) : List (String × Int) :=
  if comment.body == "" then []
  else (splitLinesStr comment.body).filterMap (fun rawLine =>
    let line := strTrim rawLine
    if voteMatch line then some (comment.user.login, voteValue line) else none)

/-- All vote events of an issue's comment history in encounter order. -/
def voteEvents (comments : List GhComment) : List (String × Int) :=
  (comments.map voteLines).flatten

/-- Embeds `votes[login] = value` on the dict, modelled as in-place overwrite on an
association list (insertion order for new authors). -/
def dictUpd : List (String × Int) → String × Int → List (String × Int)
  | [], e => [e]
  | (k, v) :: rest, e => if k == e.1 then (k, e.2) :: rest else (k, v) :: dictUpd rest e

/-- The `votes` dict built by the comment/line loops of `recount_votes`. -/
def votesDict (comments : List GhComment) : List (String × Int) :=
  (voteEvents comments).foldl dictUpd []

/-- The tally: `sum(votes.values()) if len(votes) else None`. -/
def voteScore (comments : List GhComment) : Option Int :=
  let votes := votesDict comments
  if votes.isEmpty then none else some ((votes.map Prod.snd).sum)

/-- Embeds `recount_votes`: store the tally in the record and report whether it
changed. -/
def recount_votes (issue : GhIssue) (record : Snapshot) : Bool × Snapshot :=
  let score := voteScore issue.comments
  if score ≠ record.votes then (true, { record with votes := score }) else (false, record)

/-! ## Paper-trail formatter (`default_settings.getPaperTrailMessage`) -/

/-- Embeds `getWhatsNextMessage`. -/
def getWhatsNextMessage (assignee : Option String) (labels : List String) : String :=
  let who : Option String := match assignee with
    | some a => if a == "" then none else some ("[" ++ a ++ "](https://github.com/" ++ a ++ ")")
    | none => none
  match FINAL_WORD_LABELS.find? (fun fl => labels.contains fl) with
  | some finalLabel => (explanationOf finalLabel).getD ""
  | none =>
    if labels.contains "#ready-to-commit" then
      "The changes for this issue are ready to be committed by "
        ++ who.getD "a member of the core team" ++ "."
    else
      let needs := labels.filter (fun l =>
        ("#needs".toList.isPrefixOf l.toList) && (explanationOf l).isSome)
      match needs with
      | [] => "A reviewer should examine this issue."
      | [l] => (explanationOf l).getD ""
      | _ => "\n\n * " ++ joinSep "\n * " (needs.filterMap explanationOf)

/-- Embeds `getPaperTrailMessage` (the milestone argument of `getWhatsNextMessage`
is unused by the source, so it is omitted there). -/
def getPaperTrailMessage (assignee milestone : Option String) (labels : List String)
    (votes : Option Int) : String :=
  let r0 : String := match assignee with
    | some a =>
      if a == "" then ""
      else "**Assignee:** [" ++ a ++ "](https://github.com/" ++ a ++ ").  "
    | none => ""
  let r1 := r0 ++ (match milestone with
    | some m => if m == "" then "" else "**Milestone:** " ++ m ++ ".  "
    | none => "")
  let r2 := r1 ++ (match votes with
    | some v =>
      "**Vote" ++ (if v != 1 then "s" else "") ++ ":** " ++ toString v ++ ".  "
    | none => "")
  let r3 := r2 ++ (if labels.isEmpty then ""
    else "**Label" ++ (if labels.length != 1 then "s" else "") ++ ":** "
      ++ joinSep ", " (sortStrings labels) ++ ".  ")
  let next := getWhatsNextMessage assignee labels
  let r4 := r3 ++ (if next == "" then "" else "**What's next?** " ++ next)
  let r5 := if r4 == "" then "This issue has not been labeled." else r4
  strTrim r5

/-! ## Change detection and snapshot bookkeeping -/

/-- The change-dimension set returned by `get_issue_changes`, with the
`votes` dimension phase 2 adds later. -/
structure Changes where
  labels : Bool
  assignee : Bool
  milestone : Bool
  comments : Bool
  isNew : Bool
  votes : Bool
deriving Repr, DecidableEq

/-- Python `not changes` / `len(changes)`. -/
def Changes.isEmpty (c : Changes) : Bool :=
  !(c.labels || c.assignee || c.milestone || c.comments || c.isNew || c.votes)

/-- Python `set(a) != set(b)` on label name lists, as the complement. -/
def sameSet (a b : List String) : Bool :=
  a.all (fun x => b.contains x) && b.all (fun x => a.contains x)

/-- Embeds `get_issue_changes` (phase 2 always has `_comments` loaded; the remote
comment count is the length of that list). -/
def get_issue_changes (issue : GhIssue) (record : Snapshot) : Changes :=
  { labels := !sameSet record.labels issue.labels
    assignee := record.assignee_id != issue.assignee.map GhUser.id
    milestone := record.milestone_number != issue.milestone.map GhMilestone.number
    comments :=
      match issue.comments.getLast? with
      | none => false
      | some c =>
        record.latest_seen_comment_id == none
          || record.latest_seen_comment_id != some c.id
    isNew := issue.forcePaperTrail
    votes := false }

/-- Embeds `record_issue` on an existing record: refresh the remote fingerprint and
keep `votes` and `latest_seen_comment_id`. -/
def record_issue (issue : GhIssue) (record : Snapshot) : Snapshot :=
  { record with
    number := issue.number
    comments_count := issue.comments.length
    milestone_number := issue.milestone.map GhMilestone.number
    assignee_id := issue.assignee.map GhUser.id
    labels := sortStrings issue.labels
    updated_at := some issue.updated_at }

/-- Embeds `record_latest_seen_comment`: the id of the newest fetched comment. -/
def record_latest_seen_comment (issue : GhIssue) (record : Snapshot) : Snapshot :=
  { record with latest_seen_comment_id := issue.comments.getLast?.map GhComment.id }

/-- Embeds `did_comment_on`: a previous comment by the bot's own login exists. -/
def did_comment_on (botLogin : String) (issue : GhIssue) : Bool :=
  !issue.comments.isEmpty && issue.comments.any (fun c => c.user.login == botLogin)

/-! ## Title vote suffix (`TITLE_VOTE_REGEX`) -/

/-- Count leading decimal digits of a character list. -/
def countDigits : List Char → Nat
  | c :: rest => if c.isDigit then countDigits rest + 1 else 0
  | [] => 0

/-- Length of the ` [+N]` / ` [-N]` suffix matched by `TITLE_VOTE_REGEX`,
if any: reading the title backwards, `]`, one or more digits, a sign, `[`,
a space. -/
def titleVoteSuffixLen (title : String) : Option Nat :=
  match title.toList.reverse with
  | ']' :: rest =>
    let n := countDigits rest
    if n == 0 then none
    else
      match rest.drop n with
      | s :: '[' :: ' ' :: _ => if s == '+' || s == '-' then some (n + 4) else none
      | _ => none
  | _ => none

/-- Embeds `issue_title[:-len(m.group(0))]` when the title-vote pattern matches,
else the title unchanged. -/
def stripTitleVote (title : String) : String :=
  match titleVoteSuffixLen title with
  | some n => String.mk (title.toList.take (title.toList.length - n))
  | none => title

/-- Embeds `' [%+d]' % count` (only called with a nonzero count). -/
def formatVoteSuffix (count : Int) : String :=
  " [" ++ (if 0 ≤ count then "+" ++ toString count else toString count) ++ "]"

/-! ## Phase 2 (`handle_issue_changes`)

The remote mutations are recorded as an explicit `Action` trace in the
order the Python code issues them (`dry_run = False`, every call
succeeding).  The sequential stages of the function body are named
`hic_*` definitions; each recomputes its (pure) inputs so that theorems
can speak about any stage.
-/

/-- One remote mutation issued by phase 2. -/
inductive Action where
  | patchLabels (labels : List String) : Action
  | patchMilestone (milestone : Option String) : Action
  | patchAssignee (assignee : Option String) : Action
  | patchTitle (title : String) : Action
  | patchState (state : String) : Action
  | postComment (body : String) : Action
deriving Repr, DecidableEq

/-- The outcome of `handle_issue_changes`: the remote mutation trace, the
updated database record, the final working state (with the scheduling
flags), and the final change-dimension set. -/
structure HandleResult where
  actions : List Action
  snapshot : Snapshot
  finalState : WorkingState
  changes : Changes
deriving Repr, DecidableEq

/-- The issue with `_force_paper_trail` also set when the bot has never
commented on it (first statements of `handle_issue_changes`). -/
def hic_issue (cfg : Config) (issue : GhIssue) : GhIssue :=
  { issue with
    forcePaperTrail := issue.forcePaperTrail || !did_comment_on cfg.botLogin issue }

/-- The change set detected at the top of `handle_issue_changes`. -/
def hic_changes0 (cfg : Config) (issue : GhIssue) (record : Snapshot) : Changes :=
  get_issue_changes (hic_issue cfg issue) record

/-- The initial working state built from the remote issue. -/
def hic_ws0 (issue : GhIssue) : WorkingState :=
  { labels := issue.labels
    milestone := issue.milestone.map GhMilestone.title
    assignee := issue.assignee.map GhUser.login
    shouldOpen := none
    shouldClose := none }

/-- The working state after comment interpretation (run only when the
`comments` dimension changed). -/
def hic_ws1 (cfg : Config) (issue : GhIssue) (record : Snapshot) : WorkingState :=
  if (hic_changes0 cfg issue record).comments then
    (updated_state_by_interpreting_new_comments cfg issue record.latest_seen_comment_id
      (hic_ws0 issue)).1
  else hic_ws0 issue

/-- The database record after `record_latest_seen_comment` and
`recount_votes` (run only when the `comments` dimension changed). -/
def hic_rec1 (cfg : Config) (issue : GhIssue) (record : Snapshot) : Snapshot :=
  if (hic_changes0 cfg issue record).comments then
    (recount_votes issue (record_latest_seen_comment issue record)).2
  else record

/-- Embeds `did_change_votes`. -/
def hic_didChangeVotes (cfg : Config) (issue : GhIssue) (record : Snapshot) : Bool :=
  (hic_changes0 cfg issue record).comments
    && (recount_votes issue (record_latest_seen_comment issue record)).1

/-- The final working state, after the cascade and mutual-exclusion rules. -/
def hic_ws2 (cfg : Config) (issue : GhIssue) (record : Snapshot) : WorkingState :=
  updated_state_per_label_removal_rules cfg (hic_ws1 cfg issue record)

/-- The new issue title computed in the vote block: strip any existing
vote suffix and append a fresh one when the recorded tally is nonzero. -/
def hic_newTitle (cfg : Config) (issue : GhIssue) (record : Snapshot) : String :=
  let stripped := stripTitleVote issue.title
  match (hic_rec1 cfg issue record).votes with
  | some v => if v != 0 then stripped ++ formatVoteSuffix v else stripped
  | none => stripped

/-- The label / milestone / assignee / title patches, in source order. -/
def hic_fieldPatches (cfg : Config) (issue : GhIssue) (record : Snapshot) : List Action :=
  let ws2 := hic_ws2 cfg issue record
  (if sameSet ws2.labels issue.labels then []
    else [Action.patchLabels (sortStrings ws2.labels)])
  ++ (if ws2.milestone == issue.milestone.map GhMilestone.title then []
    else [Action.patchMilestone ws2.milestone])
  ++ (if ws2.assignee == issue.assignee.map GhUser.login then []
    else [Action.patchAssignee ws2.assignee])
  ++ (if hic_didChangeVotes cfg issue record then
      [Action.patchTitle (hic_newTitle cfg issue record)]
    else [])

/-- The final change-dimension set: the detected changes plus the
dimensions phase 2 itself changed, minus `comments`, plus `votes`, plus
`labels` when the working list merely differs in order. -/
def hic_changes6 (cfg : Config) (issue : GhIssue) (record : Snapshot) : Changes :=
  let c0 := hic_changes0 cfg issue record
  let ws2 := hic_ws2 cfg issue record
  { labels := c0.labels || !sameSet ws2.labels issue.labels
      || decide (ws2.labels ≠ issue.labels)
    assignee := c0.assignee || ws2.assignee != issue.assignee.map GhUser.login
    milestone := c0.milestone || ws2.milestone != issue.milestone.map GhMilestone.title
    comments := false
    isNew := c0.isNew
    votes := hic_didChangeVotes cfg issue record }

/-- The paper-trail message posted for the final working state. -/
def hic_msg (cfg : Config) (issue : GhIssue) (record : Snapshot) : String :=
  let ws2 := hic_ws2 cfg issue record
  getPaperTrailMessage ws2.assignee ws2.milestone ws2.labels
    (hic_rec1 cfg issue record).votes

/-- The paper-trail block: the scheduled reopen (only when not already
open), the trail comment, then the scheduled close (only when not already
closed); empty when no dimension changed. -/
def hic_trailActions (cfg : Config) (issue : GhIssue) (record : Snapshot) : List Action :=
  if (hic_changes6 cfg issue record).isEmpty then []
  else
    let ws2 := hic_ws2 cfg issue record
    (if ws2.shouldOpen.isSome && issue.state != "open" then [Action.patchState "open"]
      else [])
    ++ [Action.postComment (hic_msg cfg issue record)]
    ++ (if ws2.shouldClose.isSome && issue.state != "closed" then [Action.patchState "closed"]
      else [])

/-- Embeds `handle_issue_changes` (`dry_run = False`): `postedCommentId` is the id
the tracker assigns to the paper-trail comment, recorded by the
`record_latest_seen_comment` call made after posting. -/
def handle_issue_changes (cfg : Config) (issue : GhIssue) (record : Snapshot)
    (postedCommentId : Nat) : HandleResult :=
  let changes0 := hic_changes0 cfg issue record
  if changes0.isEmpty then
    { actions := []
      snapshot := if record.updated_at == none then record_issue issue record else record
      finalState := hic_ws0 issue
      changes := changes0 }
  else
    let rec1 := hic_rec1 cfg issue record
    let rec2 :=
      if (hic_changes6 cfg issue record).isEmpty then rec1
      else { rec1 with latest_seen_comment_id := some postedCommentId }
    { actions := hic_fieldPatches cfg issue record ++ hic_trailActions cfg issue record
      snapshot := record_issue issue rec2
      finalState := hic_ws2 cfg issue record
      changes := hic_changes6 cfg issue record }

/-! ## Specification-side and proof-support definitions -/

/-- Lookup in the votes dict. -/
def dictGet (a : String) : List (String × Int) → Option Int
  | [] => none
  | e :: rest => if e.1 == a then some e.2 else dictGet a rest

/-- Specification-side reading of §4.3: the value of `author`'s last
vote-shaped line across the whole event stream, if any. -/
def lastVoteBy (author : String) : List (String × Int) → Option Int
  | [] => none
  | e :: rest =>
    match lastVoteBy author rest with
    | some v => some v
    | none => if e.1 == author then some e.2 else none

/-- The distinct authors of an event stream in first-seen order, excluding
those already in `seen`. -/
def newAuthors (seen : List String) : List (String × Int) → List String
  | [] => []
  | e :: rest =>
    if seen.contains e.1 then newAuthors seen rest
    else e.1 :: newAuthors (e.1 :: seen) rest

/-- Specification-side vote tally, following the spec's words: record
`{author: last-seen-value}` overwriting prior votes by the same author, sum
the values, and produce `None` when no author has voted (distinct from a
net-zero sum). -/
def specVoteTally (comments : List GhComment) : Option Int :=
  let evs := voteEvents comments
  let authors := newAuthors [] evs
  if authors.isEmpty then none
  else some ((authors.map (fun a => (lastVoteBy a evs).getD 0)).sum)

/-- True only for the paper-trail comment action. -/
def Action.isPostComment : Action → Bool
  | .postComment _ => true
  | _ => false

/-- True only for an issue-state patch (`open`/`closed`). -/
def Action.isStatePatch : Action → Bool
  | .patchState _ => true
  | _ => false

/-- True for the label, milestone, assignee and title patches. -/
def Action.isFieldPatch : Action → Bool
  | .patchLabels _ => true
  | .patchMilestone _ => true
  | .patchAssignee _ => true
  | .patchTitle _ => true
  | _ => false

/-- A concrete configuration for witnesses: the rule tables of
`default_settings.py` with a given repository label universe and
permission table. -/
def testConfig (known : List String) (perms : List (String × List String)) : Config :=
  { knownLabels := known
    knownMilestones := ["Someday"]
    collaboratorLogins := []
    permissions := perms
    whenLabelRemoveLabels := defaultWhenLabelRemoveLabels
    mutuallyExclusiveLabels := defaultMutuallyExclusiveLabels
    closeIssueWhenAddsLabel := defaultCloseIssueWhenAddsLabel
    openIssueWhenRemovesLabel := defaultCloseIssueWhenAddsLabel
    botLogin := "cappbot" }

/-- Witness fixture: a closed-state scenario — `alice` may edit labels and
comments `+#wont-fix` on an open issue. -/
def wCloseCfg : Config := testConfig ["#wont-fix", "bug"] [("alice", ["labels"])]

/-- Witness fixture issue for the close scenario. -/
def wCloseIssue : GhIssue :=
  ⟨1, 1, "T", "open", "2020", ["bug"], none, none,
    [⟨10, ⟨2, "alice"⟩, "u1", "+#wont-fix"⟩], false⟩

/-- Witness fixture snapshot for the close scenario. -/
def wCloseRec : Snapshot := ⟨1, 0, none, none, ["bug"], some "2019", none, some 5⟩

/-- Witness fixture: a vote scenario — a single `+1` comment. -/
def wVoteCfg : Config := testConfig ["bug"] []

/-- Witness fixture issue for the vote scenario. -/
def wVoteIssue : GhIssue :=
  ⟨1, 1, "Reduce load time", "open", "2020", ["bug"], none, none,
    [⟨10, ⟨2, "alice"⟩, "u1", "+1"⟩], false⟩

/-- Witness fixture snapshot for the vote scenario. -/
def wVoteRec : Snapshot := ⟨1, 0, none, none, ["bug"], some "2019", none, some 5⟩

/-- Witness fixture: a label-reorder scenario — `+bug` re-adds an existing
label, moving it to the end of the ordered list. -/
def wReorderCfg : Config := testConfig ["#new", "bug"] [("alice", ["labels"])]

/-- Witness fixture issue for the reorder scenario. -/
def wReorderIssue : GhIssue :=
  ⟨1, 1, "T", "open", "2020", ["bug", "#new"], none, none,
    [⟨10, ⟨2, "alice"⟩, "u1", "+bug"⟩], false⟩

/-- Witness fixture snapshot for the reorder scenario. -/
def wReorderRec : Snapshot := ⟨1, 0, none, none, ["#new", "bug"], some "2019", none, some 5⟩

/-! # Theorems -/

/-- C8: with no assignee, no milestone, no votes and exactly the label
`#new`, the paper-trail formatter yields the exact one-label message with
singular `Label` and two spaces between clauses. -/
theorem c8_paper_trail_new_label :
    getPaperTrailMessage none none ["#new"] none
      = "**Label:** #new.  **What's next?** A reviewer should examine this issue." := by
  decide

/-- C9 counterexample: on the all-empty input the formatter returns the
what's-next sentence, not the fixed `not labeled` sentence, because
`getWhatsNextMessage` never returns an empty string and so the fallback
branch of `getPaperTrailMessage` is unreachable. -/
theorem c9_counterexample_empty_input :
    getPaperTrailMessage none none [] none
        = "**What's next?** A reviewer should examine this issue."
      ∧ getPaperTrailMessage none none [] none ≠ "This issue has not been labeled." := by
  decide

/-- C9 (amended): with no assignee, no milestone, no votes and no labels,
the formatter returns the generic reviewer sentence prefixed by the
what's-next marker; the `not labeled` fallback in the source is dead code. -/
theorem c9_paper_trail_empty_input :
    getPaperTrailMessage none none [] none
      = "**What's next?** A reviewer should examine this issue." := by
  decide

/-- C6: the dispatch chain classifies each trimmed line under at most one
grammar, in the first-match order vote, add-label, remove-label,
set-milestone, set-assignee; and each of the four exact vote lines is
consumed as a vote even though its add-label (for `+1`, `+0`) or
remove-label (for `-1`, `-0`) grammar also matches it. -/
theorem c6_line_dispatch_first_match :
    (∀ line : String,
      (classifyLine line = .vote ↔ voteMatch line = true)
      ∧ (∀ n, classifyLine line = .addLabel n →
          voteMatch line = false ∧ addLabelMatch line = some n)
      ∧ (∀ n, classifyLine line = .removeLabel n →
          voteMatch line = false ∧ addLabelMatch line = none
            ∧ removeLabelMatch line = some n)
      ∧ (∀ t, classifyLine line = .setMilestone t →
          voteMatch line = false ∧ addLabelMatch line = none
            ∧ removeLabelMatch line = none ∧ setMilestoneMatch line = some t)
      ∧ (∀ a, classifyLine line = .setAssignee a →
          voteMatch line = false ∧ addLabelMatch line = none
            ∧ removeLabelMatch line = none ∧ setMilestoneMatch line = none
            ∧ setAssigneeMatch line = some a))
    ∧ (classifyLine "+1" = .vote ∧ addLabelMatch "+1" = some "1")
    ∧ (classifyLine "+0" = .vote ∧ addLabelMatch "+0" = some "0")
    ∧ (classifyLine "-1" = .vote ∧ removeLabelMatch "-1" = some "1")
    ∧ (classifyLine "-0" = .vote ∧ removeLabelMatch "-0" = some "0") := by
  refine ⟨fun line => ?_, by decide, by decide, by decide, by decide⟩
  unfold classifyLine
  cases hv : voteMatch line
  · cases ha : addLabelMatch line
    · cases hr : removeLabelMatch line
      · cases hm : setMilestoneMatch line
        · cases hs : setAssigneeMatch line <;> simp
        · simp
      · simp
    · simp
  · simp

/-- C6 witness: the concrete line `+#accepted` is dispatched to add-label
with the vote grammar rejecting it. -/
theorem c6_line_dispatch_first_match_witness :
    voteMatch "+#accepted" = false ∧ addLabelMatch "+#accepted" = some "#accepted" :=
  (c6_line_dispatch_first_match.1 "+#accepted").2.1 "#accepted" (by decide)

/-- C7: an add-label directive naming a known label from an author without
the `labels` permission leaves the working state unchanged (so no label
patch can result from it) and produces exactly one warning log entry
containing the author's login; the operation returns normally. -/
theorem c7_unauthorized_add_label_noop (cfg : Config) (newLabel lp : String)
    (comment : GhComment) (st : WorkingState)
    (hknown : get_label_by_name cfg newLabel = some lp)
    (hperm : user_may_alter_labels cfg comment.user.login = false) :
    (add_label_due_to_comment cfg newLabel comment st).1 = st
    ∧ ∃ pre suf, (add_label_due_to_comment cfg newLabel comment st).2
        = [.warning (pre ++ comment.user.login ++ suf)] := by
  unfold add_label_due_to_comment
  rw [hknown]
  simp only [hperm, Bool.not_false, if_pos]
  refine ⟨by trivial, "Ignoring unathorised attempt to alter labels by ",
    " through comment " ++ comment.url ++ ".", ?_⟩
  simp [String.append_assoc]

/-- C7 witness: the concrete unauthorized user `mallory` adding
`#accepted`. -/
theorem c7_unauthorized_add_label_noop_witness :
    (add_label_due_to_comment
        { knownLabels := ["#accepted"], knownMilestones := [], collaboratorLogins := []
          permissions := [], whenLabelRemoveLabels := defaultWhenLabelRemoveLabels
          mutuallyExclusiveLabels := defaultMutuallyExclusiveLabels
          closeIssueWhenAddsLabel := defaultCloseIssueWhenAddsLabel
          openIssueWhenRemovesLabel := defaultCloseIssueWhenAddsLabel
          botLogin := "cappbot" }
        "#accepted" ⟨44, ⟨9, "mallory"⟩, "http://c/44", "+#accepted"⟩
        ⟨["bug"], none, none, none, none⟩).1
      = ⟨["bug"], none, none, none, none⟩
    ∧ ∃ pre suf, (add_label_due_to_comment
        { knownLabels := ["#accepted"], knownMilestones := [], collaboratorLogins := []
          permissions := [], whenLabelRemoveLabels := defaultWhenLabelRemoveLabels
          mutuallyExclusiveLabels := defaultMutuallyExclusiveLabels
          closeIssueWhenAddsLabel := defaultCloseIssueWhenAddsLabel
          openIssueWhenRemovesLabel := defaultCloseIssueWhenAddsLabel
          botLogin := "cappbot" }
        "#accepted" ⟨44, ⟨9, "mallory"⟩, "http://c/44", "+#accepted"⟩
        ⟨["bug"], none, none, none, none⟩).2
      = [.warning (pre ++ "mallory" ++ suf)] :=
  c7_unauthorized_add_label_noop _ "#accepted" "#accepted" _ _ (by decide) (by decide)

/-- Lookup after a dict update. -/
theorem dictGet_dictUpd (d : List (String × Int)) (e : String × Int) (a : String) :
    dictGet a (dictUpd d e) = if e.1 == a then some e.2 else dictGet a d := by
  induction d with
  | nil => simp [dictUpd, dictGet]
  | cons kv rest ih =>
    by_cases hk : kv.1 = e.1
    · by_cases h2 : e.1 = a
      · have h2' : kv.1 = a := hk.trans h2
        simp [dictUpd, dictGet, hk, h2, h2']
      · have hka : ¬kv.1 = a := fun h => h2 (hk.symm.trans h)
        simp [dictUpd, dictGet, hk, h2, hka]
    · by_cases h2 : e.1 = a
      · have hka : ¬kv.1 = a := fun h => hk (h.trans h2.symm)
        simp [dictUpd, dictGet, hk, h2, hka, ih]
      · simp [dictUpd, dictGet, hk, h2, ih]

/-- Lookup after folding a whole event stream: the author's last vote wins,
falling back to the initial dict. -/
theorem dictGet_foldl_dictUpd (a : String) (evs : List (String × Int)) :
    ∀ d, dictGet a (evs.foldl dictUpd d)
      = match lastVoteBy a evs with
        | some v => some v
        | none => dictGet a d := by
  induction evs with
  | nil => intro d; simp [lastVoteBy]
  | cons e rest ih =>
    intro d
    have step := dictGet_dictUpd d e a
    by_cases hl : ∃ v, lastVoteBy a rest = some v
    · obtain ⟨v, hv⟩ := hl
      simp [List.foldl_cons, ih, hv, lastVoteBy]
    · have hnone : lastVoteBy a rest = none := by
        cases h : lastVoteBy a rest with
        | none => rfl
        | some v => exact absurd ⟨v, h⟩ hl
      by_cases ha : e.1 = a
      · have ha' : (e.1 == a) = true := by simp [ha]
        simp [List.foldl_cons, ih, hnone, lastVoteBy, ha', step]
      · have ha' : (e.1 == a) = false := by simp [ha]
        simp [List.foldl_cons, ih, hnone, lastVoteBy, ha', step]

/-- The keys after a dict update. -/
theorem map_fst_dictUpd (d : List (String × Int)) (e : String × Int) :
    (dictUpd d e).map Prod.fst
      = if e.1 ∈ d.map Prod.fst then d.map Prod.fst
        else d.map Prod.fst ++ [e.1] := by
  induction d with
  | nil => simp [dictUpd]
  | cons kv rest ih =>
    by_cases hk : kv.1 = e.1
    · have : (kv.1 == e.1) = true := by simp [hk]
      simp [dictUpd, this, hk]
    · have hk' : (kv.1 == e.1) = false := by simp [hk]
      have hne : ¬e.1 = kv.1 := fun h => hk h.symm
      by_cases hc : e.1 ∈ rest.map Prod.fst
      · simp [dictUpd, hk', hc, hne, ih]
      · simp [dictUpd, hk', hc, hne, ih]

/-- Embeds `newAuthors` depends on `seen` only through membership. -/
theorem newAuthors_congr (evs : List (String × Int)) :
    ∀ s1 s2 : List String, (∀ x, x ∈ s1 ↔ x ∈ s2) →
      newAuthors s1 evs = newAuthors s2 evs := by
  induction evs with
  | nil => intro s1 s2 _; rfl
  | cons e rest ih =>
    intro s1 s2 h
    by_cases hc : e.1 ∈ s1
    · have hc2 : e.1 ∈ s2 := (h e.1).1 hc
      simp [newAuthors, hc, hc2, ih s1 s2 h]
    · have hc2 : e.1 ∉ s2 := fun hx => hc ((h e.1).2 hx)
      have htail : newAuthors (e.1 :: s1) rest = newAuthors (e.1 :: s2) rest :=
        ih (e.1 :: s1) (e.1 :: s2) (fun x => by simp [h x])
      simp [newAuthors, hc, hc2, htail]

/-- The keys of the folded dict are the initial keys plus the new authors in
first-seen order. -/
theorem map_fst_foldl_dictUpd (evs : List (String × Int)) :
    ∀ d : List (String × Int),
      (evs.foldl dictUpd d).map Prod.fst
        = d.map Prod.fst ++ newAuthors (d.map Prod.fst) evs := by
  induction evs with
  | nil => intro d; simp [newAuthors]
  | cons e rest ih =>
    intro d
    by_cases hc : e.1 ∈ d.map Prod.fst
    · have hkeys : (dictUpd d e).map Prod.fst = d.map Prod.fst := by
        rw [map_fst_dictUpd, if_pos hc]
      rw [List.foldl_cons, ih (dictUpd d e), hkeys]
      simp [newAuthors, hc]
    · have hkeys : (dictUpd d e).map Prod.fst = d.map Prod.fst ++ [e.1] := by
        rw [map_fst_dictUpd, if_neg hc]
      rw [List.foldl_cons, ih (dictUpd d e), hkeys]
      have hcongr : newAuthors (d.map Prod.fst ++ [e.1]) rest
          = newAuthors (e.1 :: d.map Prod.fst) rest := by
        apply newAuthors_congr
        intro x
        simp [or_comm]
      simp [newAuthors, hc, hcongr]

/-- The authors produced by `newAuthors` are distinct and disjoint from
`seen`. -/
theorem newAuthors_nodup_fresh (evs : List (String × Int)) :
    ∀ seen : List String, (newAuthors seen evs).Nodup
      ∧ ∀ x ∈ newAuthors seen evs, x ∉ seen := by
  induction evs with
  | nil => intro seen; simp [newAuthors]
  | cons e rest ih =>
    intro seen
    by_cases hc : e.1 ∈ seen
    · simpa [newAuthors, hc] using ih seen
    · have tail := ih (e.1 :: seen)
      have hun : newAuthors seen (e :: rest) = e.1 :: newAuthors (e.1 :: seen) rest := by
        simp [newAuthors, hc]
      refine ⟨?_, ?_⟩
      · rw [hun, List.nodup_cons]
        refine ⟨fun hmem => ?_, tail.1⟩
        have := tail.2 e.1 hmem
        simp at this
      · intro x hx
        rw [hun] at hx
        rcases List.mem_cons.1 hx with rfl | hx
        · exact hc
        · have := tail.2 x hx
          simp only [List.mem_cons, not_or] at this
          exact this.2

/-- Summing the dict values equals summing the per-key lookups when the
keys are distinct. -/
theorem sum_snd_eq_sum_lookup (d : List (String × Int))
    (hnd : (d.map Prod.fst).Nodup) :
    (d.map Prod.snd).sum
      = ((d.map Prod.fst).map (fun a => (dictGet a d).getD 0)).sum := by
  induction d with
  | nil => simp
  | cons kv rest ih =>
    simp only [List.map_cons, List.sum_cons]
    have hk : (kv.1 == kv.1) = true := by simp
    have hnotin : kv.1 ∉ rest.map Prod.fst := (List.nodup_cons.1 hnd).1
    have hrest : (rest.map Prod.fst).Nodup := (List.nodup_cons.1 hnd).2
    have hcong : (rest.map Prod.fst).map (fun a => (dictGet a (kv :: rest)).getD 0)
        = (rest.map Prod.fst).map (fun a => (dictGet a rest).getD 0) := by
      apply List.map_congr_left
      intro a ha
      have hne : (kv.1 == a) = false := by
        simp only [beq_eq_false_iff_ne, ne_eq]
        intro h
        exact hnotin (h ▸ ha)
      simp [dictGet, hne]
    rw [hcong, ← ih hrest]
    simp [dictGet, hk]

/-- Embeds `newAuthors` from an empty seen list is empty only for an empty event
stream. -/
theorem newAuthors_nil_iff (evs : List (String × Int)) :
    newAuthors [] evs = [] ↔ evs = [] := by
  cases evs with
  | nil => simp [newAuthors]
  | cons e rest => simp [newAuthors, List.contains]

/-- The imperative tally of `recount_votes` equals the specification-side
last-vote-per-author tally. -/
theorem voteScore_eq_specVoteTally (comments : List GhComment) :
    voteScore comments = specVoteTally comments := by
  have hkeys : ((voteEvents comments).foldl dictUpd []).map Prod.fst
      = newAuthors [] (voteEvents comments) := by
    simpa using map_fst_foldl_dictUpd (voteEvents comments) []
  have hnodup : (((voteEvents comments).foldl dictUpd []).map Prod.fst).Nodup := by
    rw [hkeys]
    exact (newAuthors_nodup_fresh (voteEvents comments) []).1
  have hempty : ((voteEvents comments).foldl dictUpd []).isEmpty
      = (newAuthors [] (voteEvents comments)).isEmpty := by
    rcases h : (voteEvents comments).foldl dictUpd [] with _ | ⟨e, rest⟩
    · have : newAuthors [] (voteEvents comments) = [] := by
        have hk := hkeys
        rw [h] at hk
        simpa using hk.symm
      simp [this]
    · have : newAuthors [] (voteEvents comments) = e.1 :: (rest.map Prod.fst) := by
        have hk := hkeys
        rw [h] at hk
        simpa using hk.symm
      simp [this]
  simp only [voteScore, specVoteTally, votesDict]
  rw [hempty]
  rcases hE : (newAuthors [] (voteEvents comments)).isEmpty with _ | _
  · rw [if_neg (by simp), if_neg (by simp)]
    congr 1
    rw [sum_snd_eq_sum_lookup _ hnodup, hkeys]
    apply congrArg
    apply List.map_congr_left
    intro a _
    rw [dictGet_foldl_dictUpd a (voteEvents comments) []]
    cases h : lastVoteBy a (voteEvents comments) <;> simp [h, dictGet]
  · simp

/-- C2: the vote tally counts, per distinct author, only that author's last
vote-shaped line across the whole history and equals the integer sum of
those values; it is `None` exactly when no author has voted (distinct from
a zero sum); `recount_votes` stores the tally in the snapshot and returns
`true` iff it differs from the previously stored tally. -/
theorem c2_recount_votes_last_vote_per_author (issue : GhIssue) (record : Snapshot) :
    (recount_votes issue record).2.votes = specVoteTally issue.comments
    ∧ ((recount_votes issue record).1 = true ↔ specVoteTally issue.comments ≠ record.votes)
    ∧ (specVoteTally issue.comments = none ↔ voteEvents issue.comments = []) := by
  have hs := voteScore_eq_specVoteTally issue.comments
  refine ⟨?_, ?_, ?_⟩
  · unfold recount_votes
    by_cases h : voteScore issue.comments ≠ record.votes
    · rw [if_pos h]
      exact hs
    · rw [if_neg h]
      have hv : voteScore issue.comments = record.votes := not_ne_iff.1 h
      show record.votes = specVoteTally issue.comments
      rw [← hv]
      exact hs
  · unfold recount_votes
    by_cases h : voteScore issue.comments ≠ record.votes
    · rw [if_pos h]
      constructor
      · intro _
        exact hs ▸ h
      · intro _
        rfl
    · rw [if_neg h]
      constructor
      · intro habs
        exact absurd habs (by simp)
      · intro hne
        have hv : specVoteTally issue.comments = record.votes := by
          rw [← hs]
          exact not_ne_iff.1 h
        exact absurd hv hne
  · simp only [specVoteTally]
    constructor
    · intro hnone
      by_cases hnil : newAuthors [] (voteEvents issue.comments) = []
      · exact (newAuthors_nil_iff _).1 hnil
      · have hE : (newAuthors [] (voteEvents issue.comments)).isEmpty = false := by
          simpa [List.isEmpty_iff] using hnil
        rw [hE] at hnone
        simp at hnone
    · intro hev
      simp [hev, newAuthors]

/-- Sorting an already id-sorted comment list leaves it unchanged. -/
theorem sortById_of_sorted (cs : List GhComment)
    (h : cs.Pairwise (fun a b => a.id < b.id)) : sortById cs = cs := by
  induction cs with
  | nil => rfl
  | cons c rest ih =>
    have hhead := (List.pairwise_cons.1 h).1
    have hrest := (List.pairwise_cons.1 h).2
    show insertById c (sortById rest) = c :: rest
    rw [ih hrest]
    cases rest with
    | nil => rfl
    | cons d ds =>
      have hle : c.id ≤ d.id := le_of_lt (hhead d (by simp))
      simp [insertById, hle]

/-- The enumerate-and-slice loop returns exactly the comments with id above
the recorded one when the full list is strictly id-sorted. -/
theorem get_new_comments_loop_eq_filter (lid : Nat) (all : List GhComment)
    (hall : all.Pairwise (fun a b => a.id < b.id)) :
    ∀ suf pre, all = pre ++ suf → (∀ c ∈ pre, c.id < lid) →
      get_new_comments_loop lid all suf pre.length
        = all.filter (fun c => decide (lid < c.id)) := by
  intro suf
  induction suf with
  | nil =>
    intro pre hsplit hpre
    have : all.filter (fun c => decide (lid < c.id)) = [] := by
      apply List.filter_eq_nil_iff.2
      intro c hc
      have : c ∈ pre := by
        rw [hsplit] at hc
        simpa using hc
      simp only [decide_eq_true_eq, not_lt]
      exact le_of_lt (hpre c this)
    rw [this]
    rfl
  | cons c rest ih =>
    intro pre hsplit hpre
    have hmemparts := List.pairwise_append.1 (hsplit ▸ hall)
    have hcross : ∀ a ∈ pre, ∀ b ∈ c :: rest, a.id < b.id := hmemparts.2.2
    have hcs : (c :: rest).Pairwise (fun a b => a.id < b.id) := hmemparts.2.1
    have hcrest : ∀ b ∈ rest, c.id < b.id := (List.pairwise_cons.1 hcs).1
    have hfpre : pre.filter (fun x => decide (lid < x.id)) = [] := by
      apply List.filter_eq_nil_iff.2
      intro x hx
      simp only [decide_eq_true_eq, not_lt]
      exact le_of_lt (hpre x hx)
    by_cases h1 : c.id = lid
    · have hbeq : (c.id == lid) = true := by simp [h1]
      have hdrop : all.drop (pre.length + 1) = rest := by
        have hre : all = (pre ++ [c]) ++ rest := by
          rw [hsplit]
          simp
        rw [hre]
        have := List.drop_left (pre ++ [c]) rest
        simp only [List.length_append, List.length_singleton] at this
        exact this
      have hfilter : all.filter (fun x => decide (lid < x.id)) = rest := by
        rw [hsplit, List.filter_append, hfpre, List.nil_append]
        have hc : (decide (lid < c.id)) = false := by simp [h1]
        simp only [List.filter_cons, hc, Bool.false_eq_true, if_neg]
        apply List.filter_eq_self.2
        intro b hb
        simpa [h1] using hcrest b hb
      show get_new_comments_loop lid all (c :: rest) pre.length = _
      unfold get_new_comments_loop
      rw [if_pos hbeq, hdrop, hfilter]
    · by_cases h2 : lid < c.id
      · have hbeq : (c.id == lid) = false := by simp [h1]
        have hdrop : all.drop pre.length = c :: rest := by
          rw [hsplit]
          exact List.drop_left _ _
        have hfilter : all.filter (fun x => decide (lid < x.id)) = c :: rest := by
          rw [hsplit, List.filter_append, hfpre, List.nil_append]
          apply List.filter_eq_self.2
          intro b hb
          rcases List.mem_cons.1 hb with rfl | hb
          · simpa using h2
          · simpa using lt_trans h2 (hcrest b hb)
        show get_new_comments_loop lid all (c :: rest) pre.length = _
        unfold get_new_comments_loop
        rw [if_neg (by simp [hbeq]), if_pos h2, hdrop, hfilter]
      · have h3 : c.id < lid := by
          rcases lt_trichotomy c.id lid with h | h | h
          · exact h
          · exact absurd h h1
          · exact absurd h h2
        have hbeq : (c.id == lid) = false := by simp [h1]
        have hsplit' : all = (pre ++ [c]) ++ rest := by
          rw [hsplit]
          simp
        have hpre' : ∀ x ∈ pre ++ [c], x.id < lid := by
          intro x hx
          rcases List.mem_append.1 hx with hx | hx
          · exact hpre x hx
          · simp only [List.mem_singleton] at hx
            rw [hx]
            exact h3
        have := ih (pre ++ [c]) hsplit' hpre'
        rw [List.length_append] at this
        show get_new_comments_loop lid all (c :: rest) pre.length = _
        unfold get_new_comments_loop
        rw [if_neg (by simp [hbeq]), if_neg (by simpa using not_lt.2 (le_of_lt h3))]
        simpa using this

/-- C3: when comment ids are strictly increasing in list order (the stated
assumption: ids always go up and are never reused), `get_new_comments`
returns exactly the comments with id greater than the recorded
`latest_seen_comment_id` in ascending order — all comments when no id is
recorded, and all strictly newer ones when the recorded id has been
deleted. -/
theorem c3_get_new_comments_filter (latest : Option Nat) (comments : List GhComment)
    (h : comments.Pairwise (fun a b => a.id < b.id)) :
    get_new_comments latest comments
      = comments.filter (fun c =>
          match latest with
          | none => true
          | some lid => decide (lid < c.id)) := by
  cases latest with
  | none => simp [get_new_comments]
  | some lid =>
    unfold get_new_comments
    rw [sortById_of_sorted comments h]
    have := get_new_comments_loop_eq_filter lid comments h comments [] rfl (by simp)
    simpa using this

/-- C3 witness: three strictly increasing comment ids with `latest = 1`. -/
theorem c3_get_new_comments_filter_witness :
    get_new_comments (some 1)
        [⟨1, ⟨7, "a"⟩, "u", "x"⟩, ⟨2, ⟨7, "a"⟩, "u", "y"⟩, ⟨3, ⟨8, "b"⟩, "u", "z"⟩]
      = List.filter (fun c =>
          match some 1 with
          | none => true
          | some lid => decide (lid < c.id))
        [⟨1, ⟨7, "a"⟩, "u", "x"⟩, ⟨2, ⟨7, "a"⟩, "u", "y"⟩, ⟨3, ⟨8, "b"⟩, "u", "z"⟩] :=
  c3_get_new_comments_filter (some 1)
    [⟨1, ⟨7, "a"⟩, "u", "x"⟩, ⟨2, ⟨7, "a"⟩, "u", "y"⟩, ⟨3, ⟨8, "b"⟩, "u", "z"⟩]
    (by decide)

/-- Removing a canonically named label erases exactly its occurrence. -/
theorem remove_label_labels (cfg : Config) (x : String) (st : WorkingState)
    (h : get_label_by_name cfg x = some x) :
    (remove_label cfg x st).labels = st.labels.erase x := by
  unfold remove_label
  simp only [h]
  by_cases hm : x ∈ st.labels
  · rw [if_pos hm]
    split <;> rfl
  · rw [if_neg hm, List.erase_of_not_mem hm]

/-- Embeds `remove_label` only ever deletes from the label list. -/
theorem remove_label_sublist (cfg : Config) (x : String) (st : WorkingState) :
    (remove_label cfg x st).labels.Sublist st.labels := by
  unfold remove_label
  cases h : get_label_by_name cfg x with
  | none => exact List.Sublist.refl _
  | some lp =>
    simp only [h]
    by_cases hm : lp ∈ st.labels
    · rw [if_pos hm]
      split <;> exact List.erase_sublist _ _
    · rw [if_neg hm]

/-- The cascade inner loop only deletes labels. -/
theorem cascadeRemovals_sublist (cfg : Config) (ls : List String) :
    ∀ st : WorkingState, (cascadeRemovals cfg ls st).labels.Sublist st.labels := by
  induction ls with
  | nil => intro st; exact List.Sublist.refl _
  | cons l rest ih =>
    intro st
    have hfold : cascadeRemovals cfg (l :: rest) st
        = cascadeRemovals cfg rest
            (if st.labels.contains l then remove_label cfg l st else st) := rfl
    rw [hfold]
    refine List.Sublist.trans (ih _) ?_
    by_cases hc : st.labels.contains l
    · rw [if_pos hc]
      exact remove_label_sublist cfg l st
    · rw [if_neg hc]

/-- The cascade phase only deletes labels. -/
theorem cascadeRules_sublist (cfg : Config) :
    ∀ st : WorkingState, (cascadeRules cfg st).labels.Sublist st.labels := by
  suffices h : ∀ (rules : List (String × List String)) (st : WorkingState),
      (rules.foldl
        (fun s rule => if s.labels.contains rule.1 then cascadeRemovals cfg rule.2 s else s)
        st).labels.Sublist st.labels by
    intro st
    exact h cfg.whenLabelRemoveLabels st
  intro rules
  induction rules with
  | nil => intro st; exact List.Sublist.refl _
  | cons r rest ih =>
    intro st
    rw [List.foldl_cons]
    refine List.Sublist.trans (ih _) ?_
    by_cases hc : st.labels.contains r.1
    · rw [if_pos hc]
      exact cascadeRemovals_sublist cfg r.2 st
    · rw [if_neg hc]

/-- The mutual-exclusion removal fold filters out exactly the
mutually-exclusive labels listed in `todo`, provided the working labels are
distinct and the `todo` entries resolve to themselves. -/
theorem mutexRemovals_labels (cfg : Config) :
    ∀ (todo : List String) (st : WorkingState), st.labels.Nodup →
      (∀ l ∈ todo, get_label_by_name cfg l = some l) →
      (mutexRemovals cfg todo st).labels
        = st.labels.filter
            (fun l => !(cfg.mutuallyExclusiveLabels.contains l && todo.contains l)) := by
  intro todo
  induction todo with
  | nil =>
    intro st _ _
    show st.labels = _
    rw [List.filter_eq_self.2]
    intro a _
    simp
  | cons t rest ih =>
    intro st hnd hcanon
    have hstep : mutexRemovals cfg (t :: rest) st
        = mutexRemovals cfg rest
            (if cfg.mutuallyExclusiveLabels.contains t then remove_label cfg t st else st) :=
      rfl
    rw [hstep]
    by_cases hmx : cfg.mutuallyExclusiveLabels.contains t
    · have hrem : (remove_label cfg t st).labels = st.labels.erase t :=
        remove_label_labels cfg t st (hcanon t (by simp))
      have hnd' : (remove_label cfg t st).labels.Nodup := by
        rw [hrem]
        exact hnd.erase t
      have hfe : (remove_label cfg t st).labels = st.labels.filter (fun x => x != t) := by
        rw [hrem]
        exact hnd.erase_eq_filter t
      rw [if_pos hmx, ih _ hnd' (fun l hl => hcanon l (by simp [hl])), hfe,
        List.filter_filter]
      apply List.filter_congr
      intro x _
      by_cases hx : x = t
      · subst hx
        have hmem : x ∈ cfg.mutuallyExclusiveLabels := by
          simpa using hmx
        simp [List.contains_cons, hmem]
      · have hxb : (x == t) = false := by
          simpa using hx
        simp [List.contains_cons, hxb, bne, hx]
    · rw [if_neg hmx, ih st hnd (fun l hl => hcanon l (by simp [hl]))]
      apply List.filter_congr
      intro x _
      by_cases hx : x = t
      · subst hx
        have hmem : x ∉ cfg.mutuallyExclusiveLabels := by
          simpa using hmx
        simp [List.contains_cons, hmem]
      · have hxb : (x == t) = false := by
          simpa using hx
        simp [List.contains_cons, hxb, hx]

/-- The mutual-exclusion loop is the identity while it scans labels outside
the mutually-exclusive set. -/
theorem mutexLoop_skip (cfg : Config) :
    ∀ (bs : List String) (st : WorkingState),
      (∀ b ∈ bs, cfg.mutuallyExclusiveLabels.contains b = false) →
      mutexLoop cfg bs st = st := by
  intro bs
  induction bs with
  | nil => intro st _; rfl
  | cons b rest ih =>
    intro st h
    show mutexLoop cfg (b :: rest) st = st
    unfold mutexLoop
    rw [h b (by simp), if_neg (by simp)]
    exact ih st (fun x hx => h x (by simp [hx]))

/-- The mutual-exclusion loop stops at the first mutually-exclusive label
and removes the remaining ones. -/
theorem mutexLoop_split (cfg : Config) (bs1 : List String) (m : String)
    (bs2 : List String) (st : WorkingState)
    (h1 : ∀ b ∈ bs1, cfg.mutuallyExclusiveLabels.contains b = false)
    (hm : cfg.mutuallyExclusiveLabels.contains m = true) :
    mutexLoop cfg (bs1 ++ m :: bs2) st = mutexRemovals cfg bs2 st := by
  induction bs1 with
  | nil =>
    show mutexLoop cfg (m :: bs2) st = _
    unfold mutexLoop
    rw [hm, if_pos rfl]
  | cons b rest ih =>
    show mutexLoop cfg (b :: (rest ++ m :: bs2)) st = _
    unfold mutexLoop
    rw [h1 b (by simp), if_neg (by simp)]
    exact ih (fun x hx => h1 x (by simp [hx]))

/-- Splitting a list at the last element satisfying a predicate. -/
theorem filter_getLast_split {α : Type} (p : α → Bool) (ls : List α)
    (h : ls.filter p ≠ []) :
    ∃ pre m post, ls = pre ++ m :: post ∧ p m = true ∧ post.filter p = []
      ∧ (ls.filter p).getLast? = some m := by
  induction ls using List.reverseRecOn with
  | nil => simp at h
  | append_singleton init a ih =>
    by_cases hp : p a
    · refine ⟨init, a, [], by simp, hp, by simp, ?_⟩
      rw [List.filter_append]
      simp [hp]
    · have hpa : p a = false := by simpa using hp
      have hfe : (init ++ [a]).filter p = init.filter p := by
        rw [List.filter_append]
        simp [hpa]
      rw [hfe] at h ⊢
      obtain ⟨pre, m, post, hsplit, hm, hpost, hlast⟩ := ih h
      refine ⟨pre, m, post ++ [a], by simp [hsplit], hm, ?_, hlast⟩
      rw [List.filter_append]
      simp [hpost, hpa]

/-- Composing two filters. -/
theorem filter_filter_and {α : Type} (p q : α → Bool) (ls : List α) :
    (ls.filter q).filter p = ls.filter (fun l => q l && p l) := by
  induction ls with
  | nil => rfl
  | cons a rest ih =>
    by_cases hq : q a
    · by_cases hp : p a
      · simp [List.filter_cons, hq, hp, ih]
      · have hp' : p a = false := by simpa using hp
        simp [List.filter_cons, hq, hp', ih]
    · have hq' : q a = false := by simpa using hq
      simp [List.filter_cons, hq', ih]

/-- C1 (amended): whenever the ordered working label list holds more than
one mutually-exclusive label, resolves canonically, has no duplicates, and
the cascade phase does not itself delete a mutually-exclusive label, the
combined rules keep exactly one mutually-exclusive label: the one at the
highest (most recently added) position, every other one being removed via
`remove_label` so its side effects fire.  (The cascade-preservation premise
is forced by the counterexample: the `#duplicate` cascade rule can delete
`#new` before the mutual-exclusion pass runs.) -/
theorem c1_mutual_exclusion_keeps_last (cfg : Config) (st : WorkingState)
    (hcanon : ∀ l ∈ st.labels, get_label_by_name cfg l = some l)
    (hnd : st.labels.Nodup)
    (hcount : 1 < (st.labels.filter
      (fun l => cfg.mutuallyExclusiveLabels.contains l)).length)
    (hpres : (cascadeRules cfg st).labels.filter
          (fun l => cfg.mutuallyExclusiveLabels.contains l)
        = st.labels.filter (fun l => cfg.mutuallyExclusiveLabels.contains l)) :
    ∃ m, (st.labels.filter (fun l => cfg.mutuallyExclusiveLabels.contains l)).getLast?
          = some m
      ∧ (updated_state_per_label_removal_rules cfg st).labels.filter
          (fun l => cfg.mutuallyExclusiveLabels.contains l) = [m] := by
  have hsub : (cascadeRules cfg st).labels.Sublist st.labels := cascadeRules_sublist cfg st
  have hnd1 : (cascadeRules cfg st).labels.Nodup := hnd.sublist hsub
  have hcanon1 : ∀ l ∈ (cascadeRules cfg st).labels, get_label_by_name cfg l = some l :=
    fun l hl => hcanon l (hsub.subset hl)
  have hne : (cascadeRules cfg st).labels.filter
      (fun l => cfg.mutuallyExclusiveLabels.contains l) ≠ [] := by
    rw [hpres]
    intro hnil
    rw [hnil] at hcount
    simp at hcount
  obtain ⟨pre, m, post, hsplit, hm, hpost, hlast⟩ :=
    filter_getLast_split (fun l => cfg.mutuallyExclusiveLabels.contains l)
      (cascadeRules cfg st).labels hne
  have hndsplit : (pre ++ m :: post).Nodup := hsplit ▸ hnd1
  have hmpre : m ∉ pre := by
    intro hmem
    have hdisj := (List.nodup_append.1 hndsplit).2.2
    exact hdisj hmem (by simp)
  refine ⟨m, ?_, ?_⟩
  · rw [← hpres]
    exact hlast
  · have hgoal : updated_state_per_label_removal_rules cfg st
        = mutexLoop cfg (cascadeRules cfg st).labels.reverse (cascadeRules cfg st) := rfl
    rw [hgoal]
    have hrev : (cascadeRules cfg st).labels.reverse
        = post.reverse ++ m :: pre.reverse := by
      rw [hsplit]
      simp
    have hpostrev : ∀ b ∈ post.reverse,
        cfg.mutuallyExclusiveLabels.contains b = false := by
      intro b hb
      have hbm : b ∈ post := List.mem_reverse.1 hb
      have := List.filter_eq_nil_iff.1 hpost b hbm
      simpa using this
    rw [hrev, mutexLoop_split cfg post.reverse m pre.reverse _ hpostrev hm,
      mutexRemovals_labels cfg pre.reverse _ hnd1
        (fun l hl => hcanon1 l ?memrev), filter_filter_and, hsplit]
    case memrev =>
      have : l ∈ pre := List.mem_reverse.1 hl
      rw [hsplit]
      simp [this]
    · have hfm : (fun l => !(cfg.mutuallyExclusiveLabels.contains l
            && pre.reverse.contains l) && cfg.mutuallyExclusiveLabels.contains l) m
          = true := by
        have : m ∉ pre.reverse := by simpa using hmpre
        simp only [hm, Bool.and_true]
        simp [this]
      have hpreN : pre.filter (fun l => !(cfg.mutuallyExclusiveLabels.contains l
          && pre.reverse.contains l) && cfg.mutuallyExclusiveLabels.contains l) = [] := by
        apply List.filter_eq_nil_iff.2
        intro l hl
        by_cases hpl : cfg.mutuallyExclusiveLabels.contains l
        · have : l ∈ pre.reverse := by simpa using hl
          simp [hpl, this]
        · have hA : l ∉ cfg.mutuallyExclusiveLabels := by simpa using hpl
          simp [hA]
      have hpostN : post.filter (fun l => !(cfg.mutuallyExclusiveLabels.contains l
          && pre.reverse.contains l) && cfg.mutuallyExclusiveLabels.contains l) = [] := by
        apply List.filter_eq_nil_iff.2
        intro l hl
        have := List.filter_eq_nil_iff.1 hpost l hl
        simp only [Bool.and_eq_true, not_and, Bool.not_eq_true]
        intro _
        simpa using this
      rw [List.filter_append, hpreN, List.nil_append, List.filter_cons, if_pos hfm,
        hpostN]

/-- C1 counterexample: with the default settings and working labels
`['#accepted', '#new', '#duplicate']` (two mutually-exclusive labels,
`#new` most recently added), the `#duplicate` cascade rule removes `#new`
before the mutual-exclusion pass, so the surviving mutually-exclusive label
is `#accepted`, not the highest-positioned `#new` required by the claim. -/
theorem c1_mutual_exclusion_counterexample :
    1 < (WorkingState.labels
        ⟨["#accepted", "#new", "#duplicate"], none, none, none, none⟩
        |>.filter (fun l =>
          (testConfig ["#new", "#accepted", "#duplicate"] []).mutuallyExclusiveLabels.contains l)).length
    ∧ ((["#accepted", "#new", "#duplicate"] : List String).filter (fun l =>
          (testConfig ["#new", "#accepted", "#duplicate"] []).mutuallyExclusiveLabels.contains l)).getLast?
        = some "#new"
    ∧ (updated_state_per_label_removal_rules
          (testConfig ["#new", "#accepted", "#duplicate"] [])
          ⟨["#accepted", "#new", "#duplicate"], none, none, none, none⟩).labels.filter
          (fun l =>
            (testConfig ["#new", "#accepted", "#duplicate"] []).mutuallyExclusiveLabels.contains l)
        = ["#accepted"]
    ∧ ("#accepted" : String) ≠ "#new" := by
  decide

/-- C1 witness: with the default settings and working labels
`['#needs-info', '#new', '#accepted']`, the cascade phase removes only
`#needs-info`, and the mutual-exclusion pass keeps exactly the last-added
state label `#accepted`. -/
theorem c1_mutual_exclusion_keeps_last_witness :
    ∃ m, ((["#needs-info", "#new", "#accepted"] : List String).filter (fun l =>
          (testConfig ["#new", "#accepted", "#needs-info"] []).mutuallyExclusiveLabels.contains l)).getLast?
          = some m
      ∧ (updated_state_per_label_removal_rules
            (testConfig ["#new", "#accepted", "#needs-info"] [])
            ⟨["#needs-info", "#new", "#accepted"], none, none, none, none⟩).labels.filter
          (fun l =>
            (testConfig ["#new", "#accepted", "#needs-info"] []).mutuallyExclusiveLabels.contains l)
          = [m] :=
  c1_mutual_exclusion_keeps_last
    (testConfig ["#new", "#accepted", "#needs-info"] [])
    ⟨["#needs-info", "#new", "#accepted"], none, none, none, none⟩
    (by decide) (by decide) (by decide) (by decide)

/-- A field patch can never equal a state patch. -/
theorem isFieldPatch_beq_state_false (a : Action) (h : a.isFieldPatch = true) (s : String) :
    (a == Action.patchState s) = false := by
  cases a <;> simp_all [Action.isFieldPatch]

/-- A field patch is neither the trail comment nor a state patch. -/
theorem isFieldPatch_spec (a : Action) (h : a.isFieldPatch = true) :
    a.isPostComment = false ∧ a.isStatePatch = false := by
  cases a <;> simp_all [Action.isFieldPatch, Action.isPostComment, Action.isStatePatch]

/-- Membership in `if c then [] else [x]`. -/
theorem mem_ite_nil_single {α : Type} {c : Prop} [Decidable c] {x a : α}
    (h : a ∈ (if c then ([] : List α) else [x])) : a = x := by
  split at h
  · simp at h
  · simpa using h

/-- Membership in `if c then [x] else []`. -/
theorem mem_ite_single_nil {α : Type} {c : Prop} [Decidable c] {x a : α}
    (h : a ∈ (if c then [x] else ([] : List α))) : a = x ∧ c := by
  split at h
  · next hc => exact ⟨by simpa using h, hc⟩
  · simp at h

/-- Every action issued before the paper-trail block is a field patch. -/
theorem hic_fieldPatches_shape (cfg : Config) (issue : GhIssue) (record : Snapshot) :
    ∀ a ∈ hic_fieldPatches cfg issue record, a.isFieldPatch = true := by
  intro a ha
  unfold hic_fieldPatches at ha
  simp only [List.mem_append] at ha
  rcases ha with ((h | h) | h) | h
  · rw [mem_ite_nil_single h]
    rfl
  · rw [mem_ite_nil_single h]
    rfl
  · rw [mem_ite_nil_single h]
    rfl
  · rw [(mem_ite_single_nil h).1]
    rfl

/-- The paper-trail block is either empty or the open-patch prefix, the
trail comment, and the close-patch suffix. -/
theorem hic_trailActions_cases (cfg : Config) (issue : GhIssue) (record : Snapshot) :
    ((hic_changes6 cfg issue record).isEmpty = true
      ∧ hic_trailActions cfg issue record = [])
    ∨ ((hic_changes6 cfg issue record).isEmpty = false
      ∧ hic_trailActions cfg issue record
        = (if (hic_ws2 cfg issue record).shouldOpen.isSome
              && issue.state != "open"
            then [Action.patchState "open"] else [])
          ++ Action.postComment (hic_msg cfg issue record)
          :: (if (hic_ws2 cfg issue record).shouldClose.isSome
              && issue.state != "closed"
            then [Action.patchState "closed"] else [])) := by
  unfold hic_trailActions
  by_cases h : (hic_changes6 cfg issue record).isEmpty = true
  · left
    rw [if_pos h]
    exact ⟨h, rfl⟩
  · right
    rw [if_neg h]
    exact ⟨by simpa using h, by simp⟩

/-- The early-return branch of `handle_issue_changes`. -/
theorem handle_issue_changes_empty (cfg : Config) (issue : GhIssue) (record : Snapshot)
    (pid : Nat) (hE : (hic_changes0 cfg issue record).isEmpty = true) :
    handle_issue_changes cfg issue record pid
      = { actions := []
          snapshot := if record.updated_at == none then record_issue issue record else record
          finalState := hic_ws0 issue
          changes := hic_changes0 cfg issue record } := by
  unfold handle_issue_changes
  rw [if_pos hE]

/-- The main branch of `handle_issue_changes`. -/
theorem handle_issue_changes_main (cfg : Config) (issue : GhIssue) (record : Snapshot)
    (pid : Nat) (hE : (hic_changes0 cfg issue record).isEmpty = false) :
    handle_issue_changes cfg issue record pid
      = { actions := hic_fieldPatches cfg issue record ++ hic_trailActions cfg issue record
          snapshot := record_issue issue
            (if (hic_changes6 cfg issue record).isEmpty then hic_rec1 cfg issue record
              else { hic_rec1 cfg issue record with latest_seen_comment_id := some pid })
          finalState := hic_ws2 cfg issue record
          changes := hic_changes6 cfg issue record } := by
  unfold handle_issue_changes
  rw [if_neg (by simp [hE])]

/-- Aligning two decompositions of a list around its unique element
satisfying `p`. -/
theorem append_cons_align {α : Type} (p : α → Bool) :
    ∀ (pre l1 suf l2 : List α) (x y : α), pre ++ x :: suf = l1 ++ y :: l2 →
      p x = true → p y = true →
      (∀ a ∈ pre, p a = false) → (∀ a ∈ suf, p a = false) →
      l1 = pre ∧ y = x ∧ l2 = suf := by
  intro pre
  induction pre with
  | nil =>
    intro l1 suf l2 x y heq hx hy hpre hsuf
    cases l1 with
    | nil =>
      simp only [List.nil_append, List.cons.injEq] at heq
      exact ⟨rfl, heq.1.symm, heq.2.symm⟩
    | cons a l1' =>
      simp only [List.nil_append, List.cons_append, List.cons.injEq] at heq
      have hymem : y ∈ suf := by
        rw [heq.2]
        simp
      have := hsuf y hymem
      rw [hy] at this
      exact absurd this (by simp)
  | cons b pre' ih =>
    intro l1 suf l2 x y heq hx hy hpre hsuf
    cases l1 with
    | nil =>
      simp only [List.nil_append, List.cons_append, List.cons.injEq] at heq
      have hb : p b = false := hpre b (by simp)
      rw [heq.1] at hb
      rw [hy] at hb
      exact absurd hb (by simp)
    | cons a l1' =>
      simp only [List.cons_append, List.cons.injEq] at heq
      have hrec := ih l1' suf l2 x y heq.2 hx hy
        (fun q hq => hpre q (by simp [hq])) hsuf
      refine ⟨?_, hrec.2.1, hrec.2.2⟩
      rw [hrec.1, heq.1]

/-- C4: in phase-2 handling, a scheduled reopen is patched before the
paper-trail comment and only when the issue is not already open; a
scheduled close is patched after the paper-trail comment and only when the
issue is not already closed; the close patch never precedes the trail
comment. -/
theorem c4_state_patches_around_trail (cfg : Config) (issue : GhIssue)
    (record : Snapshot) (pid : Nat) :
    (((handle_issue_changes cfg issue record pid).finalState.shouldOpen.isSome = true
        ∧ issue.state ≠ "open"
        ∧ (handle_issue_changes cfg issue record pid).changes.isEmpty = false)
      → Action.patchState "open" ∈ (handle_issue_changes cfg issue record pid).actions)
    ∧ (Action.patchState "open" ∈ (handle_issue_changes cfg issue record pid).actions
      → (handle_issue_changes cfg issue record pid).finalState.shouldOpen.isSome = true
        ∧ issue.state ≠ "open")
    ∧ (∀ l1 l2 m, (handle_issue_changes cfg issue record pid).actions
          = l1 ++ Action.postComment m :: l2
      → Action.patchState "open" ∉ l2)
    ∧ (((handle_issue_changes cfg issue record pid).finalState.shouldClose.isSome = true
        ∧ issue.state ≠ "closed"
        ∧ (handle_issue_changes cfg issue record pid).changes.isEmpty = false)
      → Action.patchState "closed" ∈ (handle_issue_changes cfg issue record pid).actions)
    ∧ (Action.patchState "closed" ∈ (handle_issue_changes cfg issue record pid).actions
      → (handle_issue_changes cfg issue record pid).finalState.shouldClose.isSome = true
        ∧ issue.state ≠ "closed")
    ∧ (∀ l1 l2, (handle_issue_changes cfg issue record pid).actions
          = l1 ++ Action.patchState "closed" :: l2
      → ∃ m, Action.postComment m ∈ l1) := by
  by_cases hE : (hic_changes0 cfg issue record).isEmpty = true
  · rw [handle_issue_changes_empty cfg issue record pid hE]
    dsimp only
    refine ⟨?_, ?_, ?_, ?_, ?_, ?_⟩
    · rintro ⟨hopen, -, -⟩
      simp [hic_ws0] at hopen
    · intro hmem
      simp at hmem
    · intro l1 l2 m heq
      exact absurd heq.symm (by simp)
    · rintro ⟨hclose, -, -⟩
      simp [hic_ws0] at hclose
    · intro hmem
      simp at hmem
    · intro l1 l2 heq
      exact absurd heq.symm (by simp)
  · rw [handle_issue_changes_main cfg issue record pid (by simpa using hE)]
    dsimp only
    have hFshape := hic_fieldPatches_shape cfg issue record
    have hFnopost : ∀ a ∈ hic_fieldPatches cfg issue record,
        a.isPostComment = false :=
      fun a ha => (isFieldPatch_spec a (hFshape a ha)).1
    have hFnostate : ∀ a ∈ hic_fieldPatches cfg issue record,
        a.isStatePatch = false :=
      fun a ha => (isFieldPatch_spec a (hFshape a ha)).2
    rcases hic_trailActions_cases cfg issue record with ⟨hC, hT⟩ | ⟨hC, hT⟩
    · rw [hT, List.append_nil]
      refine ⟨?_, ?_, ?_, ?_, ?_, ?_⟩
      · rintro ⟨-, -, habs⟩
        rw [hC] at habs
        exact absurd habs (by simp)
      · intro hmem
        have := hFnostate _ hmem
        simp [Action.isStatePatch] at this
      · intro l1 l2 m heq
        have hmem : Action.postComment m ∈ hic_fieldPatches cfg issue record := by
          rw [heq]
          simp
        have := hFnopost _ hmem
        simp [Action.isPostComment] at this
      · rintro ⟨-, -, habs⟩
        rw [hC] at habs
        exact absurd habs (by simp)
      · intro hmem
        have := hFnostate _ hmem
        simp [Action.isStatePatch] at this
      · intro l1 l2 heq
        have hmem : Action.patchState "closed" ∈ hic_fieldPatches cfg issue record := by
          rw [heq]
          simp
        have := hFnostate _ hmem
        simp [Action.isStatePatch] at this
    · rw [hT]
      by_cases hO : ((hic_ws2 cfg issue record).shouldOpen.isSome
          && issue.state != "open") = true
      · have hOc := hO
        rw [Bool.and_eq_true] at hOc
        obtain ⟨hO1, hO2b⟩ := hOc
        have hO2 := bne_iff_ne.1 hO2b
        by_cases hCl : ((hic_ws2 cfg issue record).shouldClose.isSome
            && issue.state != "closed") = true
        · have hClc := hCl
          rw [Bool.and_eq_true] at hClc
          obtain ⟨hC1, hC2b⟩ := hClc
          have hC2 := bne_iff_ne.1 hC2b
          rw [if_pos hO, if_pos hCl]
          refine ⟨fun _ => by simp, fun _ => ⟨hO1, hO2⟩, ?_,
            fun _ => by simp, fun _ => ⟨hC1, hC2⟩, ?_⟩
          · intro l1 l2 m heq
            have heq' : (hic_fieldPatches cfg issue record ++ [Action.patchState "open"])
                ++ Action.postComment (hic_msg cfg issue record)
                  :: [Action.patchState "closed"]
                = l1 ++ Action.postComment m :: l2 := by
              rw [← heq]
              simp
            have halign := append_cons_align Action.isPostComment _ l1 _ l2 _ _ heq' rfl rfl
              (fun a ha => by
                rcases List.mem_append.1 ha with h | h
                · exact hFnopost a h
                · rw [List.mem_singleton.1 h]
                  rfl)
              (fun a ha => by
                rw [List.mem_singleton.1 ha]
                rfl)
            rw [halign.2.2]
            intro hmem
            rw [List.mem_singleton] at hmem
            exact absurd hmem (by decide)
          · intro l1 l2 heq
            have heq' : ((hic_fieldPatches cfg issue record ++ [Action.patchState "open"])
                ++ [Action.postComment (hic_msg cfg issue record)])
                ++ Action.patchState "closed" :: ([] : List Action)
                = l1 ++ Action.patchState "closed" :: l2 := by
              rw [← heq]
              simp
            have halign := append_cons_align (fun a => a == Action.patchState "closed")
              _ l1 _ l2 _ _ heq' (by simp) (by simp)
              (fun a ha => by
                rcases List.mem_append.1 ha with h | h
                · rcases List.mem_append.1 h with h2 | h2
                  · exact isFieldPatch_beq_state_false a (hFshape a h2) "closed"
                  · rw [List.mem_singleton.1 h2]
                    decide
                · rw [List.mem_singleton.1 h]
                  simp)
              (fun a ha => absurd ha (List.not_mem_nil a))
            refine ⟨hic_msg cfg issue record, ?_⟩
            rw [halign.1]
            simp
        · rw [if_pos hO, if_neg hCl]
          refine ⟨fun _ => by simp, fun _ => ⟨hO1, hO2⟩, ?_, ?_, ?_, ?_⟩
          · intro l1 l2 m heq
            have heq' : (hic_fieldPatches cfg issue record ++ [Action.patchState "open"])
                ++ Action.postComment (hic_msg cfg issue record) :: ([] : List Action)
                = l1 ++ Action.postComment m :: l2 := by
              rw [← heq]
              simp
            have halign := append_cons_align Action.isPostComment _ l1 _ l2 _ _ heq' rfl rfl
              (fun a ha => by
                rcases List.mem_append.1 ha with h | h
                · exact hFnopost a h
                · rw [List.mem_singleton.1 h]
                  rfl)
              (fun a ha => absurd ha (List.not_mem_nil a))
            rw [halign.2.2]
            exact List.not_mem_nil _
          · rintro ⟨h1, h2, -⟩
            refine absurd ?_ hCl
            rw [h1, Bool.true_and]
            exact bne_iff_ne.2 h2
          · intro hmem
            rcases List.mem_append.1 hmem with h | h
            · have := hFnostate _ h
              simp [Action.isStatePatch] at this
            · rcases List.mem_append.1 h with h2 | h2
              · rw [List.mem_singleton] at h2
                exact absurd h2 (by decide)
              · rw [List.mem_singleton] at h2
                exact absurd h2 (by simp)
          · intro l1 l2 heq
            have hmem : Action.patchState "closed"
                ∈ hic_fieldPatches cfg issue record
                  ++ ([Action.patchState "open"]
                    ++ [Action.postComment (hic_msg cfg issue record)]) := by
              have : Action.patchState "closed" ∈ l1 ++ Action.patchState "closed" :: l2 := by
                simp
              rw [← heq] at this
              simpa using this
            rcases List.mem_append.1 hmem with h | h
            · have := hFnostate _ h
              simp [Action.isStatePatch] at this
            · rcases List.mem_append.1 h with h2 | h2
              · rw [List.mem_singleton] at h2
                exact absurd h2 (by decide)
              · rw [List.mem_singleton] at h2
                exact absurd h2 (by simp)
      · by_cases hCl : ((hic_ws2 cfg issue record).shouldClose.isSome
            && issue.state != "closed") = true
        · have hClc := hCl
          rw [Bool.and_eq_true] at hClc
          obtain ⟨hC1, hC2b⟩ := hClc
          have hC2 := bne_iff_ne.1 hC2b
          rw [if_neg hO, if_pos hCl]
          refine ⟨?_, ?_, ?_, fun _ => by simp, fun _ => ⟨hC1, hC2⟩, ?_⟩
          · rintro ⟨h1, h2, -⟩
            refine absurd ?_ hO
            rw [h1, Bool.true_and]
            exact bne_iff_ne.2 h2
          · intro hmem
            rcases List.mem_append.1 hmem with h | h
            · have := hFnostate _ h
              simp [Action.isStatePatch] at this
            · have h' : Action.patchState "open"
                  ∈ Action.postComment (hic_msg cfg issue record)
                    :: [Action.patchState "closed"] := by
                simpa using h
              rcases List.mem_cons.1 h' with h2 | h2
              · exact absurd h2 (by simp)
              · rw [List.mem_singleton] at h2
                exact absurd h2 (by decide)
          · intro l1 l2 m heq
            have heq' : hic_fieldPatches cfg issue record
                ++ Action.postComment (hic_msg cfg issue record)
                  :: [Action.patchState "closed"]
                = l1 ++ Action.postComment m :: l2 := by
              rw [← heq]
              simp
            have halign := append_cons_align Action.isPostComment _ l1 _ l2 _ _ heq' rfl rfl
              (fun a ha => hFnopost a ha)
              (fun a ha => by
                rw [List.mem_singleton.1 ha]
                rfl)
            rw [halign.2.2]
            intro hmem
            rw [List.mem_singleton] at hmem
            exact absurd hmem (by decide)
          · intro l1 l2 heq
            have heq' : (hic_fieldPatches cfg issue record
                ++ [Action.postComment (hic_msg cfg issue record)])
                ++ Action.patchState "closed" :: ([] : List Action)
                = l1 ++ Action.patchState "closed" :: l2 := by
              rw [← heq]
              simp
            have halign := append_cons_align (fun a => a == Action.patchState "closed")
              _ l1 _ l2 _ _ heq' (by simp) (by simp)
              (fun a ha => by
                rcases List.mem_append.1 ha with h | h
                · exact isFieldPatch_beq_state_false a (hFshape a h) "closed"
                · rw [List.mem_singleton.1 h]
                  simp)
              (fun a ha => absurd ha (List.not_mem_nil a))
            refine ⟨hic_msg cfg issue record, ?_⟩
            rw [halign.1]
            simp
        · rw [if_neg hO, if_neg hCl]
          refine ⟨?_, ?_, ?_, ?_, ?_, ?_⟩
          · rintro ⟨h1, h2, -⟩
            refine absurd ?_ hO
            rw [h1, Bool.true_and]
            exact bne_iff_ne.2 h2
          · intro hmem
            rcases List.mem_append.1 hmem with h | h
            · have := hFnostate _ h
              simp [Action.isStatePatch] at this
            · have h' : Action.patchState "open"
                  ∈ [Action.postComment (hic_msg cfg issue record)] := by
                simpa using h
              exact absurd (List.mem_singleton.1 h') (by simp)
          · intro l1 l2 m heq
            have heq' : hic_fieldPatches cfg issue record
                ++ Action.postComment (hic_msg cfg issue record) :: ([] : List Action)
                = l1 ++ Action.postComment m :: l2 := by
              rw [← heq]
              simp
            have halign := append_cons_align Action.isPostComment _ l1 _ l2 _ _ heq' rfl rfl
              (fun a ha => hFnopost a ha)
              (fun a ha => absurd ha (List.not_mem_nil a))
            rw [halign.2.2]
            exact List.not_mem_nil _
          · rintro ⟨h1, h2, -⟩
            refine absurd ?_ hCl
            rw [h1, Bool.true_and]
            exact bne_iff_ne.2 h2
          · intro hmem
            rcases List.mem_append.1 hmem with h | h
            · have := hFnostate _ h
              simp [Action.isStatePatch] at this
            · have h' : Action.patchState "closed"
                  ∈ [Action.postComment (hic_msg cfg issue record)] := by
                simpa using h
              exact absurd (List.mem_singleton.1 h') (by simp)
          · intro l1 l2 heq
            have hmem : Action.patchState "closed"
                ∈ hic_fieldPatches cfg issue record
                  ++ ([] ++ Action.postComment (hic_msg cfg issue record) :: []) := by
              have : Action.patchState "closed" ∈ l1 ++ Action.patchState "closed" :: l2 := by
                simp
              rw [← heq] at this
              exact this
            rcases List.mem_append.1 hmem with h | h
            · have := hFnostate _ h
              simp [Action.isStatePatch] at this
            · have h' : Action.patchState "closed"
                  ∈ [Action.postComment (hic_msg cfg issue record)] := by
                simpa using h
              exact absurd (List.mem_singleton.1 h') (by simp)

/-- After the comment branch ran, the recorded tally is the recomputed
score. -/
theorem hic_rec1_votes (cfg : Config) (issue : GhIssue) (record : Snapshot)
    (h : (hic_changes0 cfg issue record).comments = true) :
    (hic_rec1 cfg issue record).votes = voteScore issue.comments := by
  unfold hic_rec1
  rw [if_pos h]
  unfold recount_votes
  by_cases hne : voteScore issue.comments ≠ (record_latest_seen_comment issue record).votes
  · rw [if_pos hne]
  · rw [if_neg hne]
    exact (not_ne_iff.1 hne).symm

/-- A title patch occurs among the field patches exactly when the vote
tally changed, and then carries the recomputed title. -/
theorem patchTitle_mem_fieldPatches (cfg : Config) (issue : GhIssue) (record : Snapshot)
    (t : String) :
    Action.patchTitle t ∈ hic_fieldPatches cfg issue record
      ↔ (hic_didChangeVotes cfg issue record = true
          ∧ t = hic_newTitle cfg issue record) := by
  unfold hic_fieldPatches
  constructor
  · intro h
    simp only [List.mem_append] at h
    rcases h with ((h | h) | h) | h
    · exact absurd (mem_ite_nil_single h) (by simp)
    · exact absurd (mem_ite_nil_single h) (by simp)
    · exact absurd (mem_ite_nil_single h) (by simp)
    · obtain ⟨heq, hc⟩ := mem_ite_single_nil h
      refine ⟨hc, ?_⟩
      simpa using heq
  · rintro ⟨hdv, rfl⟩
    simp only [List.mem_append]
    right
    rw [if_pos hdv]
    simp

/-- The paper-trail block contains no title patch. -/
theorem trail_no_patchTitle (cfg : Config) (issue : GhIssue) (record : Snapshot)
    (t : String) :
    Action.patchTitle t ∉ hic_trailActions cfg issue record := by
  intro h
  rcases hic_trailActions_cases cfg issue record with ⟨-, hT⟩ | ⟨-, hT⟩
  · rw [hT] at h
    simp at h
  · rw [hT] at h
    rcases List.mem_append.1 h with h2 | h2
    · exact absurd (mem_ite_single_nil h2).1 (by simp)
    · rcases List.mem_cons.1 h2 with h3 | h3
      · simp at h3
      · exact absurd (mem_ite_single_nil h3).1 (by simp)

/-- C5: a title patch is issued exactly when the vote tally changed during
the pass, and the patched title is the old title with any ` [+N]`/` [-N]`
suffix stripped, plus a fresh signed suffix exactly when the new tally is
nonzero (a tally of `0` or `None` yields no suffix). -/
theorem c5_title_patch_iff_votes_changed (cfg : Config) (issue : GhIssue)
    (record : Snapshot) (pid : Nat) :
    ((∃ t, Action.patchTitle t ∈ (handle_issue_changes cfg issue record pid).actions)
      ↔ hic_didChangeVotes cfg issue record = true)
    ∧ (∀ t, Action.patchTitle t ∈ (handle_issue_changes cfg issue record pid).actions
      → t = stripTitleVote issue.title
          ++ (match voteScore issue.comments with
              | some v => if v = 0 then "" else formatVoteSuffix v
              | none => "")) := by
  by_cases hE : (hic_changes0 cfg issue record).isEmpty = true
  · rw [handle_issue_changes_empty cfg issue record pid hE]
    dsimp only
    have hc : (hic_changes0 cfg issue record).comments = false := by
      unfold Changes.isEmpty at hE
      simp only [Bool.not_eq_true', Bool.or_eq_false_iff] at hE
      exact hE.1.1.2
    have hdvf : hic_didChangeVotes cfg issue record = false := by
      unfold hic_didChangeVotes
      rw [hc]
      simp
    refine ⟨⟨fun ⟨t, ht⟩ => absurd ht (by simp), fun hdv => ?_⟩, fun t ht => absurd ht (by simp)⟩
    rw [hdvf] at hdv
    exact absurd hdv (by simp)
  · rw [handle_issue_changes_main cfg issue record pid (by simpa using hE)]
    dsimp only
    have hcomments_of : hic_didChangeVotes cfg issue record = true
        → (hic_changes0 cfg issue record).comments = true := by
      intro hdv
      unfold hic_didChangeVotes at hdv
      rw [Bool.and_eq_true] at hdv
      exact hdv.1
    have hnt : hic_didChangeVotes cfg issue record = true
        → hic_newTitle cfg issue record
          = stripTitleVote issue.title
            ++ (match voteScore issue.comments with
                | some v => if v = 0 then "" else formatVoteSuffix v
                | none => "") := by
      intro hdv
      unfold hic_newTitle
      rw [hic_rec1_votes cfg issue record (hcomments_of hdv)]
      cases hvs : voteScore issue.comments with
      | none => simp
      | some v =>
        by_cases hv : v = 0
        · simp [hv]
        · have hvb : (v != 0) = true := by simpa using hv
          simp [hv, hvb]
    refine ⟨⟨?_, ?_⟩, ?_⟩
    · rintro ⟨t, ht⟩
      rcases List.mem_append.1 ht with h | h
      · exact ((patchTitle_mem_fieldPatches cfg issue record t).1 h).1
      · exact absurd h (trail_no_patchTitle cfg issue record t)
    · intro hdv
      exact ⟨hic_newTitle cfg issue record,
        List.mem_append.2 (Or.inl
          ((patchTitle_mem_fieldPatches cfg issue record _).2 ⟨hdv, rfl⟩))⟩
    · intro t ht
      rcases List.mem_append.1 ht with h | h
      · obtain ⟨hdv, hteq⟩ := (patchTitle_mem_fieldPatches cfg issue record t).1 h
        rw [hteq]
        exact hnt hdv
      · exact absurd h (trail_no_patchTitle cfg issue record t)

/-- C10: when the final working label list is a reordering of the remote
labels (equal as sets, different as lists), no label patch is issued, yet
`labels` is still counted as a changed dimension and a paper-trail comment
is posted although the remote label set was not modified. -/
theorem c10_label_reorder_posts_trail_without_patch (cfg : Config) (issue : GhIssue)
    (record : Snapshot) (pid : Nat)
    (hset : sameSet (handle_issue_changes cfg issue record pid).finalState.labels
      issue.labels = true)
    (hlist : (handle_issue_changes cfg issue record pid).finalState.labels
      ≠ issue.labels) :
    (∀ ls, Action.patchLabels ls ∉ (handle_issue_changes cfg issue record pid).actions)
    ∧ (handle_issue_changes cfg issue record pid).changes.labels = true
    ∧ ∃ m, Action.postComment m ∈ (handle_issue_changes cfg issue record pid).actions := by
  by_cases hE : (hic_changes0 cfg issue record).isEmpty = true
  · rw [handle_issue_changes_empty cfg issue record pid hE] at hlist
    dsimp only at hlist
    exact absurd rfl hlist
  · rw [handle_issue_changes_main cfg issue record pid (by simpa using hE)] at hset hlist ⊢
    dsimp only at hset hlist ⊢
    have hlabels6 : (hic_changes6 cfg issue record).labels = true := by
      unfold hic_changes6
      simp [hlist]
    have hnonempty : (hic_changes6 cfg issue record).isEmpty = false := by
      unfold Changes.isEmpty
      rw [hlabels6]
      simp
    refine ⟨?_, hlabels6, ?_⟩
    · intro ls hmem
      rcases List.mem_append.1 hmem with h | h
      · unfold hic_fieldPatches at h
        simp only [List.mem_append] at h
        rcases h with ((h | h) | h) | h
        · rw [if_pos hset] at h
          simp at h
        · exact absurd (mem_ite_nil_single h) (by simp)
        · exact absurd (mem_ite_nil_single h) (by simp)
        · exact absurd (mem_ite_single_nil h).1 (by simp)
      · rcases hic_trailActions_cases cfg issue record with ⟨hC, -⟩ | ⟨-, hT⟩
        · rw [hnonempty] at hC
          exact absurd hC (by simp)
        · rw [hT] at h
          rcases List.mem_append.1 h with h2 | h2
          · exact absurd (mem_ite_single_nil h2).1 (by simp)
          · rcases List.mem_cons.1 h2 with h3 | h3
            · simp at h3
            · exact absurd (mem_ite_single_nil h3).1 (by simp)
    · rcases hic_trailActions_cases cfg issue record with ⟨hC, -⟩ | ⟨-, hT⟩
      · rw [hnonempty] at hC
        exact absurd hC (by simp)
      · exact ⟨hic_msg cfg issue record,
          List.mem_append.2 (Or.inr (by rw [hT]; simp))⟩

/-- C4 witness: adding `#wont-fix` by comment on an open issue schedules a
close, and the close patch is issued (after the trail comment). -/
theorem c4_state_patches_around_trail_witness :
    Action.patchState "closed" ∈ (handle_issue_changes wCloseCfg wCloseIssue wCloseRec 99).actions :=
  (c4_state_patches_around_trail wCloseCfg wCloseIssue wCloseRec 99).2.2.2.1
    ⟨by decide, by decide, by decide⟩

/-- C5 witness: a fresh `+1` vote changes the tally, so a title patch is
issued. -/
theorem c5_title_patch_iff_votes_changed_witness :
    ∃ t, Action.patchTitle t ∈ (handle_issue_changes wVoteCfg wVoteIssue wVoteRec 99).actions :=
  (c5_title_patch_iff_votes_changed wVoteCfg wVoteIssue wVoteRec 99).1.mpr (by decide)

/-- C10 witness: re-adding the `bug` label reorders the working list
without changing the set; `labels` counts as changed and a trail comment is
posted. -/
theorem c10_label_reorder_posts_trail_without_patch_witness :
    (handle_issue_changes wReorderCfg wReorderIssue wReorderRec 99).changes.labels = true
    ∧ ∃ m, Action.postComment m
        ∈ (handle_issue_changes wReorderCfg wReorderIssue wReorderRec 99).actions :=
  ⟨(c10_label_reorder_posts_trail_without_patch wReorderCfg wReorderIssue wReorderRec 99
      (by decide) (by decide)).2.1,
    (c10_label_reorder_posts_trail_without_patch wReorderCfg wReorderIssue wReorderRec 99
      (by decide) (by decide)).2.2⟩

/-- C2 witness: two votes by the same author (the second overwrites the
first) and one opposing vote net to a recorded tally of `0`, distinct from
`None`. -/
theorem c2_recount_votes_last_vote_per_author_witness :
    (recount_votes
        ⟨1, 1, "T", "open", "2020", [], none, none,
          [⟨1, ⟨7, "alice"⟩, "u", "+1"⟩, ⟨2, ⟨7, "alice"⟩, "u", "+1"⟩,
           ⟨3, ⟨8, "bob"⟩, "u", "-1"⟩], false⟩
        ⟨1, 0, none, none, [], none, none, none⟩).2.votes
      = specVoteTally
          [⟨1, ⟨7, "alice"⟩, "u", "+1"⟩, ⟨2, ⟨7, "alice"⟩, "u", "+1"⟩,
           ⟨3, ⟨8, "bob"⟩, "u", "-1"⟩]
    ∧ specVoteTally
          [⟨1, ⟨7, "alice"⟩, "u", "+1"⟩, ⟨2, ⟨7, "alice"⟩, "u", "+1"⟩,
           ⟨3, ⟨8, "bob"⟩, "u", "-1"⟩]
        = some 0 :=
  ⟨(c2_recount_votes_last_vote_per_author
      ⟨1, 1, "T", "open", "2020", [], none, none,
        [⟨1, ⟨7, "alice"⟩, "u", "+1"⟩, ⟨2, ⟨7, "alice"⟩, "u", "+1"⟩,
         ⟨3, ⟨8, "bob"⟩, "u", "-1"⟩], false⟩
      ⟨1, 0, none, none, [], none, none, none⟩).1, by decide⟩

end CappBot
